/-
Verification of the TrinketTrayManifest update script
(`update_manifest_script.py`) against its specification.

The script is embedded shallowly: JSON values are an inductive type,
the manifest file is modelled as missing / unparseable / a parsed JSON
array together with its byte content, network and filesystem effects are
inputs supplied by a `World` structure, and the whole run is a pure
function `runScript` from the configuration and the world to a
`RunResult` (outcome, final file state, and effect flags).

Python-specific semantics that the script relies on are embedded
faithfully:
  * `x in s` membership tests compare with Python `==`; since the script
    only ever tests a `str` needle, an element matches exactly when it is
    a string with equal content;
  * `dict.get(k, default)` / `d[k]` lookups, and `d[k] = v` assignment
    which keeps the position of an existing key and appends a new key;
  * `str.title()` and `str.replace('-', ' ')` (ASCII fragment: the
    folder names the script handles are ASCII);
  * `json.dump(..., indent=2)` serialization, including `ensure_ascii`
    escaping;
  * error classes: `KeyError` for a missing dict key, `TypeError` for
    subscripting a non-dict, `AttributeError` for `.get` on a non-dict.
-/
import Mathlib

set_option maxHeartbeats 1000000

namespace TrinketManifest

/-- A JSON value, as produced by `json.load`.  Objects keep their key
order (Python dicts preserve insertion order) and have distinct keys
(later duplicates overwrite earlier ones during parsing). -/
inductive Json where
  | null
  | bool (b : Bool)
  | num (n : Int)
  | str (s : String)
  | arr (elems : List Json)
  | obj (entries : List (String × Json))

/-- Python dict lookup `d[k] / d.get(k)` on the association list of an
object: first (unique) matching key. -/
def lookupKey : List (String × Json) → String → Option Json
  | [], _ => none
  | (k', v) :: rest, k => if k' = k then some v else lookupKey rest k

/-- Python dict assignment `d[k] = v`: replaces the value of an existing
key in place, otherwise appends the new key at the end (insertion
order). -/
def setKey : List (String × Json) → String → Json → List (String × Json)
  | [], k, v => [(k, v)]
  | (k', v') :: rest, k, v =>
    if k' = k then (k', v) :: rest else (k', v') :: setKey rest k v

/-- Field access on an arbitrary JSON value: object lookup, `none`
otherwise. Used only in specifications, not in the embedded script. -/
def jGet : Json → String → Option Json
  | .obj kvs, k => lookupKey kvs k
  | _, _ => none

/-- Python `needle in hay` for two strings: substring test. -/
def strContains (needle hay : String) : Bool :=
  (List.range (hay.length + 1)).any (fun i => needle.data.isPrefixOf (hay.data.drop i))

/-- Python `==` between a JSON value and a `str`: true exactly for a
string with equal content. -/
def pyEqStr (v : Json) (s : String) : Bool :=
  match v with
  | .str s' => s' = s
  | _ => false

/-- Python `str.replace('-', ' ')` (single-character pattern). -/
def dashToSpace (s : String) : String :=
  ⟨s.data.map (fun c => if c = '-' then ' ' else c)⟩

/-- Core of Python `str.title()` on the character list: a cased letter
is uppercased when the previous character was not cased, lowercased
otherwise (ASCII fragment). -/
def pyTitleAux : Bool → List Char → List Char
  | _, [] => []
  | prevCased, c :: cs =>
    if c.isAlpha then
      (if prevCased then c.toLower else c.toUpper) :: pyTitleAux true cs
    else
      c :: pyTitleAux false cs

/-- Python `str.title()` (ASCII fragment). -/
def pyTitle (s : String) : String := ⟨pyTitleAux false s.data⟩

/-! ### `json.dump(..., indent=2)` serialization -/

/-- Four lowercase hex digits, zero padded, as in a `\uXXXX` escape. -/
def hex4 (n : Nat) : String :=
  let ds := Nat.toDigits 16 n
  ⟨List.replicate (4 - ds.length) '0' ++ ds⟩

/-- The indentation written at nesting depth `d` with `indent=2`. -/
def indentStr (d : Nat) : String := ⟨List.replicate (2 * d) ' '⟩

/-- `json.dump` escaping of one character of a string, with the default
`ensure_ascii=True`: short escapes for the usual control characters,
`\uXXXX` (with surrogate pairs above the BMP) for every other character
outside the printable ASCII range `0x20`–`0x7e`. -/
def escChar (c : Char) : String :=
  if c = '"' then "\\\""
  else if c = '\\' then "\\\\"
  else if c = '\n' then "\\n"
  else if c = '\t' then "\\t"
  else if c = '\r' then "\\r"
  else if c.val = 8 then "\\b"
  else if c.val = 12 then "\\f"
  else if c.val < 0x20 ∨ c.val > 0x7e then
    if c.val ≥ 0x10000 then
      let v := c.val.toNat - 0x10000
      "\\u" ++ hex4 (0xd800 + v / 0x400) ++ "\\u" ++ hex4 (0xdc00 + v % 0x400)
    else "\\u" ++ hex4 c.val.toNat
  else String.singleton c

/-- A JSON string literal as written by `json.dump`. -/
def dumpStr (s : String) : String :=
  "\"" ++ String.join (s.data.map escChar) ++ "\""

mutual

/-- `json.dump(v, f, indent=2)` at nesting depth `d`: with an `indent`,
Python writes each container element on its own indented line, item
separator `,` and key separator `: `; empty containers print inline. -/
def dumpVal (d : Nat) : Json → String
  | .null => "null"
  | .bool true => "true"
  | .bool false => "false"
  | .num n => toString n
  | .str s => dumpStr s
  | .arr [] => "[]"
  | .arr (x :: xs) =>
    "[\n" ++ indentStr (d + 1) ++ dumpVal (d + 1) x ++
      dumpArrRest (d + 1) xs ++ "\n" ++ indentStr d ++ "]"
  | .obj [] => "\x7b\x7d"
  | .obj ((k, v) :: kvs) =>
    "\x7b\n" ++ indentStr (d + 1) ++ dumpStr k ++ ": " ++ dumpVal (d + 1) v ++
      dumpObjRest (d + 1) kvs ++ "\n" ++ indentStr d ++ "\x7d"

/-- Remaining array items, each preceded by `,\n` and the indentation. -/
def dumpArrRest (d : Nat) : List Json → String
  | [] => ""
  | x :: xs => ",\n" ++ indentStr d ++ dumpVal d x ++ dumpArrRest d xs

/-- Remaining object items, each preceded by `,\n` and the indentation. -/
def dumpObjRest (d : Nat) : List (String × Json) → String
  | [] => ""
  | (k, v) :: kvs =>
    ",\n" ++ indentStr d ++ dumpStr k ++ ": " ++ dumpVal d v ++ dumpObjRest d kvs

end

/-- Top-level serialization, as `json.dump(manifest_data, f, indent=2)`
writes it. -/
def dumpJson (v : Json) : String := dumpVal 0 v

/-! ### The script's state space -/

/-- A Python exception class relevant to the script's unhandled paths. -/
inductive PyErr where
  | keyError
  | typeError
  | attributeError
deriving DecidableEq

/-- The environment configuration read at module load:
`TRINKET_CONTENT_REPO` and `TRINKET_CONTENT_REF` (`os.environ.get`
yields `none` when the variable is absent). -/
structure Config where
  repo : Option String
  ref : Option String

/-- Python truthiness of an `os.environ.get` result, as tested by
`all([TRINKET_CONTENT_REPO, TRINKET_CONTENT_REF])`: `None` and the
empty string are falsy. -/
def truthy : Option String → Bool
  | none => false
  | some s => !(s = "")

/-- The manifest file on disk.  `jsonArr raw xs` is a present file whose
byte content is `raw` and whose `json.load` result is the array `xs`
(the script's claims only concern manifests whose JSON top level is an
array); when the script itself writes the file, `raw` is
`dumpJson (.arr xs)` and `xs` is recovered by `json.load` on the next
run (the exact round-trip of Python's `json` module on this value
space). -/
inductive ManifestFile where
  | missing
  | invalidJson (raw : String)
  | jsonArr (raw : String) (xs : List Json)

/-- Outcome of the second download plus extraction plus root-directory
listing (lines 55–112 of the script): a transport failure
(`requests.exceptions.RequestException`), a corrupt archive
(`zipfile.BadZipFile`), any other exception caught by the broad
handler, or a successful extraction with `hasRoot` recording whether a
top-level directory was found and `rootEntries` the `os.listdir`
listing of that root as (name, is-directory) pairs. -/
inductive Scan where
  | transportFail
  | badZip
  | unexpectedErr
  | ok (hasRoot : Bool) (rootEntries : List (String × Bool))

/-- Everything the outside world feeds one run: the manifest file, the
result of the first archive download (`none` = transport failure, as
`calculate_sha256_from_url` returns `None`), and the outcome of the
second download and scan.  In reality `fetch1` and `scan` both derive
from the same upstream archive. -/
structure World where
  manifest : ManifestFile
  fetch1 : Option (List Nat)
  scan : Scan

/-- How the process terminated: `exit(1)` through a logged error path,
an unhandled Python exception (also a non-zero process exit, but not
through any of the script's handlers), or a normal finish (exit 0)
with `noChanges` telling which of the two final log lines ran. -/
inductive Outcome where
  | fatal (code : Nat)
  | uncaught (e : PyErr)
  | success (noChanges : Bool)
deriving DecidableEq

/-- The observable result of a run: the outcome, the final manifest
file, and whether any HTTP request was attempted, the manifest file was
opened, and the manifest file was written. -/
structure RunResult where
  outcome : Outcome
  file : ManifestFile
  networkAttempted : Bool
  manifestAccessed : Bool
  wrote : Bool

/-! ### The script's operations -/

/-- `EXCLUDE_PATTERNS` (line 14). -/
def excludePatterns : List String :=
  [".git", ".github", ".vscode", "__pycache__", ".DS_Store"]

/-- Whether a JSON value is hashable in Python: `None`, booleans,
numbers and strings are; lists and dicts raise
`TypeError: unhashable type` when added to a set. -/
def hashable : Json → Bool
  | .arr _ => false
  | .obj _ => false
  | _ => true

/-- `existing_trinket_ids = {t['id'] for t in manifest_data}` (line 43):
collects every entry's `id` value left to right; a dict without the
key raises `KeyError`, subscripting a non-dict raises `TypeError`, and
adding an unhashable id value (a JSON list or dict) to the set raises
`TypeError` as well.  The Python set is modelled as the list of ids in
iteration order (only `in` membership is ever used on it). -/
def extractIds : List Json → Except PyErr (List Json)
  | [] => .ok []
  | t :: ts =>
    match t with
    | .obj kvs =>
      match lookupKey kvs "id" with
      | some v =>
        if hashable v then (extractIds ts).map (fun ids => v :: ids)
        else .error .typeError
      | none => .error .keyError
    | _ => .error .typeError

/-- Python `trinket_id in existing_trinket_ids` for a `str` trinket id:
true exactly when some collected id is a string with equal content. -/
def idMem (name : String) (ids : List Json) : Bool :=
  ids.any (fun v => pyEqStr v name)

/-- The dict literal built for a newly discovered trinket folder
(lines 91–99). -/
def newTrinketEntry (tid hash ref : String) : Json :=
  .obj [("id", .str tid),
        ("name", .str (pyTitle (dashToSpace tid))),
        ("appUrl", .str ("https://Nishimba.github.io/TrinketCollection/" ++ tid ++ "/index.html")),
        ("iconUrl", .str ("https://Nishimba.github.io/TrinketCollection/" ++ tid ++ "/icon.png")),
        ("entryFile", .str ("https://Nishimba.github.io/TrinketCollection/" ++ tid ++ "/index.html")),
        ("hash", .str hash),
        ("ref", .str ref)]

/-- The folder-discovery loop (lines 81–102) over the root listing:
skips names in `EXCLUDE_PATTERNS`, skips non-directories, skips ids
already in `existing_trinket_ids`, and otherwise appends a new entry,
records the id, and marks the manifest dirty.  Returns the list of
appended entries, the final id set, and the dirty flag contributed by
this loop. -/
def discover (hash ref : String) : List (String × Bool) → List Json → List Json × List Json × Bool
  | [], ids => ([], ids, false)
  | (name, isDir) :: rest, ids =>
    if name ∈ excludePatterns then discover hash ref rest ids
    else if isDir then
      if idMem name ids then discover hash ref rest ids
      else
        let (ap, ids', _) := discover hash ref rest (ids ++ [.str name])
        (newTrinketEntry name hash ref :: ap, ids', true)
    else discover hash ref rest ids

/-- Python `TRINKET_CONTENT_REPO in trinket.get('appUrl', '')`
(line 116): substring test on a string, `==`-membership in a list, key
membership in a dict, `TypeError` on a non-container value. -/
def pyIn (needle : String) (hay : Json) : Except PyErr Bool :=
  match hay with
  | .str s => .ok (strContains needle s)
  | .arr l => .ok (l.any (fun v => pyEqStr v needle))
  | .obj kvs => .ok (kvs.any (fun kv => kv.1 = needle))
  | _ => .error .typeError

/-- Whether one manifest entry matches the hash-update condition of
line 116 (`.get` on a non-dict raises `AttributeError`). -/
def entryMatches (repo : String) (t : Json) : Except PyErr Bool :=
  match t with
  | .obj kvs => pyIn repo ((lookupKey kvs "appUrl").getD (.str ""))
  | _ => .error .attributeError

/-- One iteration of the hash-update loop (lines 115–125): when the
entry's `appUrl` contains the configured repository and its stored
`hash` differs from the new digest (`trinket.get('hash') !=
new_repo_hash`, where a missing key or a non-string value always
differs from the digest string), assign `hash` and `ref` and flag an
update; otherwise leave the entry as is. -/
def updateOne (repo ref h : String) (t : Json) : Except PyErr (Json × Bool) :=
  match t with
  | .obj kvs =>
    match pyIn repo ((lookupKey kvs "appUrl").getD (.str "")) with
    | .error e => .error e
    | .ok true =>
      if (lookupKey kvs "hash").any (fun v => pyEqStr v h) then
        .ok (.obj kvs, false)
      else
        .ok (.obj (setKey (setKey kvs "hash" (.str h)) "ref" (.str ref)), true)
    | .ok false => .ok (.obj kvs, false)
  | _ => .error .attributeError

/-- The hash-update loop over the whole (possibly extended) manifest:
left-to-right, first exception aborts the loop (and, being uncaught,
the whole run before any write), the dirty flag is the disjunction of
the per-entry flags. -/
def updateLoop (repo ref h : String) : List Json → Except PyErr (List Json × Bool)
  | [] => .ok ([], false)
  | t :: ts =>
    match updateOne repo ref h t with
    | .error e => .error e
    | .ok (t', u) =>
      match updateLoop repo ref h ts with
      | .error e => .error e
      | .ok (ts', us) => .ok (t' :: ts', u || us)

/-- The reconciliation phase (folder discovery, lines 81–102, then the
hash-update loop, lines 114–125, then the conditional write-back,
lines 127–133) once the archive has been scanned: `repo` and `rfs` are
the configured repository and reference, `newHash` the digest of the
downloaded archive, `raw`/`xs` the manifest file's current bytes and
parsed entries, `ids` the collected `existing_trinket_ids`, and
`entries` the root directory listing.  An exception inside the update
loop is uncaught and leaves the file as it was; otherwise the file is
rewritten, serialized with 2-space indentation, exactly when either
loop flagged a change. -/
def reconcile (repo rfs newHash raw : String) (xs ids : List Json)
    (entries : List (String × Bool)) : RunResult :=
  let (appended, _, addedFlag) := discover newHash rfs entries ids
  match updateLoop repo rfs newHash (xs ++ appended) with
  | .error e => ⟨.uncaught e, .jsonArr raw xs, true, true, false⟩
  | .ok (xs2, updFlag) =>
    if addedFlag || updFlag then
      ⟨.success false, .jsonArr (dumpJson (.arr xs2)) xs2, true, true, true⟩
    else
      ⟨.success true, .jsonArr raw xs, true, true, false⟩

/-- The whole run of `update_manifest_script.py` as a function of the
configuration, the digest function (`hashlib.sha256(...).hexdigest()`
applied to the downloaded bytes), and the world: the module-load
environment check (lines 16–18), manifest open and parse (lines
39–40, handlers at 135–140), id collection (line 43), first download
and digest (lines 46–51), second download / extraction / scan (lines
53–112), and the reconciliation phase. -/
def runScript (cfg : Config) (hashFn : List Nat → String) (w : World) : RunResult :=
  if !(truthy cfg.repo && truthy cfg.ref) then
    ⟨.fatal 1, w.manifest, false, false, false⟩
  else
    let repo := cfg.repo.getD ""
    let ref := cfg.ref.getD ""
    match w.manifest with
    | .missing => ⟨.fatal 1, .missing, false, true, false⟩
    | .invalidJson raw => ⟨.fatal 1, .invalidJson raw, false, true, false⟩
    | .jsonArr raw xs =>
      match extractIds xs with
      | .error e => ⟨.uncaught e, .jsonArr raw xs, false, true, false⟩
      | .ok ids =>
        match w.fetch1 with
        | none => ⟨.fatal 1, .jsonArr raw xs, true, true, false⟩
        | some bytes =>
          let newHash := hashFn bytes
          match w.scan with
          | .transportFail => ⟨.fatal 1, .jsonArr raw xs, true, true, false⟩
          | .badZip => ⟨.fatal 1, .jsonArr raw xs, true, true, false⟩
          | .unexpectedErr => ⟨.fatal 1, .jsonArr raw xs, true, true, false⟩
          | .ok hasRoot entries =>
            if !hasRoot then ⟨.fatal 1, .jsonArr raw xs, true, true, false⟩
            else reconcile repo ref newHash raw xs ids entries

/-- The entry list a manifest file parses to (empty when the file is
missing or unparseable); used to state properties of the final file. -/
def fileEntries : ManifestFile → List Json
  | .jsonArr _ xs => xs
  | _ => []

/-- Whether an entry's stored `hash` already equals the digest `h`
(specification shorthand for the line 117 comparison). -/
def hashUpToDate (h : String) (t : Json) : Bool :=
  (jGet t "hash").any (fun v => pyEqStr v h)

/-- The well-formedness the specification assumes of a manifest entry:
a JSON object that has an `id` field and whose `appUrl` field, when
present, is a string.  Every manifest the script itself writes
satisfies this. -/
def wfEntry (t : Json) : Bool :=
  match t with
  | .obj kvs =>
    (lookupKey kvs "id").isSome &&
      (match lookupKey kvs "appUrl" with
       | none => true
       | some (.str _) => true
       | some _ => false)
  | _ => false

/-- A valid manifest: a JSON array of well-formed entries. -/
def wfManifest (xs : List Json) : Bool := xs.all wfEntry

/-- Whether a manifest entry's `id` field is the string `B`
(specification shorthand, used to count entries for one folder). -/
def hasId (B : String) (t : Json) : Bool :=
  (jGet t "id").any (fun v => pyEqStr v B)

/-! ### Lemmas about dict lookup and assignment -/

theorem lookupKey_setKey_self (kvs : List (String × Json)) (k : String) (v : Json) :
    lookupKey (setKey kvs k v) k = some v := by
  induction kvs with
  | nil => simp [setKey, lookupKey]
  | cons p rest ih =>
    obtain ⟨k', v'⟩ := p
    by_cases hk : k' = k
    · simp [setKey, hk, lookupKey]
    · simp [setKey, hk, lookupKey, ih]

theorem lookupKey_setKey_ne (kvs : List (String × Json)) (k k' : String) (v : Json)
    (hne : k' ≠ k) : lookupKey (setKey kvs k v) k' = lookupKey kvs k' := by
  have hkk' : ¬(k = k') := fun hh => hne hh.symm
  induction kvs with
  | nil => simp [setKey, lookupKey, hkk']
  | cons p rest ih =>
    obtain ⟨k'', v''⟩ := p
    by_cases hk : k'' = k
    · subst hk
      simp [setKey, lookupKey, hkk']
    · by_cases hk' : k'' = k'
      · simp [setKey, hk, lookupKey, hk', hne]
      · simp [setKey, hk, lookupKey, hk', ih]

/-! ### Lemmas about one step of the hash-update loop -/

/-- Full case analysis of a successful `updateOne` step: the entry is a
dict, and the step is either a skip of a non-matching entry, a skip of
a matching entry whose hash is already the digest, or a real update. -/
theorem updateOne_cases {repo rf h : String} {t t' : Json} {u : Bool}
    (hu : updateOne repo rf h t = .ok (t', u)) :
    ∃ kvs, t = .obj kvs ∧
      ((entryMatches repo t = .ok false ∧ t' = t ∧ u = false) ∨
       (entryMatches repo t = .ok true ∧ hashUpToDate h t = true ∧ t' = t ∧ u = false) ∨
       (entryMatches repo t = .ok true ∧ hashUpToDate h t = false ∧
         t' = .obj (setKey (setKey kvs "hash" (.str h)) "ref" (.str rf)) ∧ u = true)) := by
  cases t with
  | obj kvs =>
    refine ⟨kvs, rfl, ?_⟩
    simp only [updateOne] at hu
    cases hpy : pyIn repo ((lookupKey kvs "appUrl").getD (.str "")) with
    | error e => rw [hpy] at hu; exact absurd hu (by simp)
    | ok b =>
      rw [hpy] at hu
      cases b with
      | false =>
        simp only [Except.ok.injEq, Prod.mk.injEq] at hu
        exact Or.inl ⟨by simp [entryMatches, hpy], hu.1.symm, hu.2.symm⟩
      | true =>
        by_cases hh : (lookupKey kvs "hash").any (fun v => pyEqStr v h) = true
        · rw [if_pos hh] at hu
          simp only [Except.ok.injEq, Prod.mk.injEq] at hu
          exact Or.inr (Or.inl ⟨by simp [entryMatches, hpy],
            by simpa [hashUpToDate, jGet] using hh, hu.1.symm, hu.2.symm⟩)
        · rw [if_neg hh] at hu
          simp only [Except.ok.injEq, Prod.mk.injEq] at hu
          refine Or.inr (Or.inr ⟨by simp [entryMatches, hpy], ?_, hu.1.symm, hu.2.symm⟩)
          simpa [hashUpToDate, jGet] using hh
  | null => simp [updateOne] at hu
  | bool b => simp [updateOne] at hu
  | num n => simp [updateOne] at hu
  | str s => simp [updateOne] at hu
  | arr l => simp [updateOne] at hu

theorem pyEqStr_true_iff {v : Json} {s : String} : pyEqStr v s = true ↔ v = .str s := by
  cases v <;> simp [pyEqStr]

theorem updateOne_preserve {repo rf h : String} {t t' : Json} {u : Bool}
    (hu : updateOne repo rf h t = .ok (t', u)) (k : String)
    (hk1 : k ≠ "hash") (hk2 : k ≠ "ref") : jGet t' k = jGet t k := by
  obtain ⟨kvs, rfl, hc⟩ := updateOne_cases hu
  rcases hc with ⟨-, rfl, -⟩ | ⟨-, -, rfl, -⟩ | ⟨-, -, rfl, -⟩
  · rfl
  · rfl
  · simp only [jGet]
    rw [lookupKey_setKey_ne _ _ _ _ hk2, lookupKey_setKey_ne _ _ _ _ hk1]

theorem updateOne_obj {repo rf h : String} {t t' : Json} {u : Bool}
    (hu : updateOne repo rf h t = .ok (t', u)) :
    ∃ kvs kvs', t = .obj kvs ∧ t' = .obj kvs' := by
  obtain ⟨kvs, rfl, hc⟩ := updateOne_cases hu
  rcases hc with ⟨-, rfl, -⟩ | ⟨-, -, rfl, -⟩ | ⟨-, -, rfl, -⟩ <;> exact ⟨kvs, _, rfl, rfl⟩

/-- `entryMatches` only looks at the `appUrl` field of a dict. -/
theorem entryMatches_obj {repo : String} {kvs : List (String × Json)} :
    entryMatches repo (.obj kvs) = pyIn repo ((jGet (.obj kvs) "appUrl").getD (.str "")) := rfl

theorem updateOne_matches_eq {repo rf h : String} {t t' : Json} {u : Bool}
    (hu : updateOne repo rf h t = .ok (t', u)) (repo' : String) :
    entryMatches repo' t' = entryMatches repo' t := by
  obtain ⟨kvs, kvs', hkvs, hkvs'⟩ := updateOne_obj hu
  subst hkvs hkvs'
  rw [entryMatches_obj, entryMatches_obj,
    updateOne_preserve hu "appUrl" (by decide) (by decide)]

theorem updateOne_hash_val {repo rf h : String} {t t' : Json} {u : Bool}
    (hu : updateOne repo rf h t = .ok (t', u))
    (hm : entryMatches repo t = .ok true) : jGet t' "hash" = some (.str h) := by
  obtain ⟨kvs, rfl, hc⟩ := updateOne_cases hu
  rcases hc with ⟨hm', rfl, -⟩ | ⟨-, hup, rfl, -⟩ | ⟨-, -, rfl, -⟩
  · rw [hm] at hm'; exact absurd hm' (by simp)
  · unfold hashUpToDate at hup
    rw [jGet] at hup ⊢
    cases hv : lookupKey kvs "hash" with
    | none =>
      rw [hv] at hup
      exact absurd hup (by simp [Option.any])
    | some v =>
      rw [hv] at hup
      simp only [Option.any] at hup
      rw [pyEqStr_true_iff.mp hup]
  · simp only [jGet]
    rw [lookupKey_setKey_ne _ _ _ _ (by decide), lookupKey_setKey_self]

theorem updateOne_flag_false {repo rf h : String} {t t' : Json}
    (hu : updateOne repo rf h t = .ok (t', false)) : t' = t := by
  obtain ⟨kvs, rfl, hc⟩ := updateOne_cases hu
  rcases hc with ⟨-, rfl, -⟩ | ⟨-, -, rfl, -⟩ | ⟨-, -, -, hfl⟩
  · rfl
  · rfl
  · exact absurd hfl (by simp)

theorem updateOne_flag_true {repo rf h : String} {t t' : Json}
    (hu : updateOne repo rf h t = .ok (t', true)) :
    entryMatches repo t = .ok true ∧ hashUpToDate h t = false ∧
      jGet t' "hash" = some (.str h) ∧ jGet t' "ref" = some (.str rf) := by
  obtain ⟨kvs, rfl, hc⟩ := updateOne_cases hu
  rcases hc with ⟨-, -, hfl⟩ | ⟨-, -, -, hfl⟩ | ⟨hm, hup, rfl, -⟩
  · exact absurd hfl.symm (by simp)
  · exact absurd hfl.symm (by simp)
  · refine ⟨hm, hup, ?_, ?_⟩ <;> simp only [jGet]
    · rw [lookupKey_setKey_ne _ _ _ _ (by decide), lookupKey_setKey_self]
    · rw [lookupKey_setKey_self]

theorem updateOne_skip_of_not_matching {repo rf h : String} {t : Json}
    (hm : entryMatches repo t = .ok false) : updateOne repo rf h t = .ok (t, false) := by
  cases t with
  | obj kvs =>
    rw [entryMatches] at hm
    simp [updateOne, hm]
  | null => exact absurd hm (by simp [entryMatches])
  | bool b => exact absurd hm (by simp [entryMatches])
  | num n => exact absurd hm (by simp [entryMatches])
  | str s => exact absurd hm (by simp [entryMatches])
  | arr l => exact absurd hm (by simp [entryMatches])

theorem updateOne_skip_of_uptodate {repo rf h : String} {t : Json}
    (hm : entryMatches repo t = .ok true) (hh : hashUpToDate h t = true) :
    updateOne repo rf h t = .ok (t, false) := by
  cases t with
  | obj kvs =>
    rw [entryMatches] at hm
    rw [hashUpToDate, jGet] at hh
    simp [updateOne, hm, hh]
  | null => exact absurd hm (by simp [entryMatches])
  | bool b => exact absurd hm (by simp [entryMatches])
  | num n => exact absurd hm (by simp [entryMatches])
  | str s => exact absurd hm (by simp [entryMatches])
  | arr l => exact absurd hm (by simp [entryMatches])

theorem updateOne_hash_uptodate {repo rf h : String} {t t' : Json} {u : Bool}
    (hu : updateOne repo rf h t = .ok (t', u))
    (hm : entryMatches repo t = .ok true) : hashUpToDate h t' = true := by
  rw [hashUpToDate, updateOne_hash_val hu hm]
  simp [pyEqStr_true_iff]

/-- Applying the hash-update step to its own output is a no-op. -/
theorem updateOne_idem {repo rf h : String} {t t' : Json} {u : Bool}
    (hu : updateOne repo rf h t = .ok (t', u)) :
    updateOne repo rf h t' = .ok (t', false) := by
  have hmeq := updateOne_matches_eq hu repo
  obtain ⟨kvs, rfl, hc⟩ := updateOne_cases hu
  rcases hc with ⟨hm, rfl, -⟩ | ⟨hm, hup, rfl, -⟩ | ⟨hm, hup, ht', -⟩
  · exact updateOne_skip_of_not_matching hm
  · exact updateOne_skip_of_uptodate hm hup
  · exact updateOne_skip_of_uptodate (hmeq.trans hm)
      (updateOne_hash_uptodate hu hm)

/-- Unfolding of the line 43 id collection on a dict entry whose `id`
key is present. -/
theorem extractIds_cons_obj {kvs : List (String × Json)} {ts : List Json} {v : Json}
    (hid : lookupKey kvs "id" = some v) :
    extractIds (Json.obj kvs :: ts) =
      if hashable v then (extractIds ts).map (fun ids => v :: ids)
      else .error .typeError := by
  rw [extractIds, hid]

/-- Unfolding of the line 43 id collection on a dict entry without an
`id` key: `KeyError`. -/
theorem extractIds_cons_obj_none {kvs : List (String × Json)} {ts : List Json}
    (hid : lookupKey kvs "id" = none) :
    extractIds (Json.obj kvs :: ts) = .error .keyError := by
  rw [extractIds, hid]

/-! ### Lemmas about the hash-update loop -/

theorem updateLoop_cons_ok {repo rf h : String} {t : Json} {ts ys : List Json} {u : Bool}
    (hu : updateLoop repo rf h (t :: ts) = .ok (ys, u)) :
    ∃ t' u1 ts' u2, updateOne repo rf h t = .ok (t', u1) ∧
      updateLoop repo rf h ts = .ok (ts', u2) ∧ ys = t' :: ts' ∧ u = (u1 || u2) := by
  rw [updateLoop] at hu
  cases h1 : updateOne repo rf h t with
  | error e => rw [h1] at hu; exact absurd hu (by simp)
  | ok p =>
    obtain ⟨t', u1⟩ := p
    rw [h1] at hu
    cases h2 : updateLoop repo rf h ts with
    | error e => rw [h2] at hu; exact absurd hu (by simp)
    | ok q =>
      obtain ⟨ts', u2⟩ := q
      rw [h2] at hu
      simp only [Except.ok.injEq, Prod.mk.injEq] at hu
      exact ⟨t', u1, ts', u2, rfl, rfl, hu.1.symm, hu.2.symm⟩

theorem updateLoop_length {repo rf h : String} :
    ∀ {xs ys : List Json} {u : Bool},
      updateLoop repo rf h xs = .ok (ys, u) → ys.length = xs.length := by
  intro xs
  induction xs with
  | nil => intro ys u hu; rw [updateLoop] at hu; simp at hu; simp [hu.1]
  | cons t ts ih =>
    intro ys u hu
    obtain ⟨t', u1, ts', u2, -, h2, rfl, -⟩ := updateLoop_cons_ok hu
    simp [ih h2]

theorem updateLoop_mem {repo rf h : String} :
    ∀ {xs ys : List Json} {u : Bool},
      updateLoop repo rf h xs = .ok (ys, u) → ∀ t' ∈ ys,
        ∃ t ∈ xs, ∃ u', updateOne repo rf h t = .ok (t', u') := by
  intro xs
  induction xs with
  | nil =>
    intro ys u hu
    rw [updateLoop] at hu; simp at hu
    rw [hu.1]; intro t' ht'; exact absurd ht' (by simp)
  | cons t ts ih =>
    intro ys u hu
    obtain ⟨t', u1, ts', u2, h1, h2, rfl, -⟩ := updateLoop_cons_ok hu
    intro s hs
    rcases List.mem_cons.mp hs with rfl | hs'
    · exact ⟨t, by simp, u1, h1⟩
    · obtain ⟨t0, ht0, u', h'⟩ := ih h2 s hs'
      exact ⟨t0, by simp [ht0], u', h'⟩

theorem updateLoop_pointwise {repo rf h : String} :
    ∀ {xs ys : List Json} {u : Bool},
      updateLoop repo rf h xs = .ok (ys, u) →
      ∀ i (hi : i < xs.length) (hj : i < ys.length),
        ∃ ui, updateOne repo rf h (xs.get ⟨i, hi⟩) = .ok (ys.get ⟨i, hj⟩, ui) := by
  intro xs
  induction xs with
  | nil => intro ys u hu i hi; exact absurd hi (by simp)
  | cons t ts ih =>
    intro ys u hu i hi hj
    obtain ⟨t', u1, ts', u2, h1, h2, rfl, -⟩ := updateLoop_cons_ok hu
    cases i with
    | zero => exact ⟨u1, h1⟩
    | succ n =>
      exact ih h2 n (Nat.lt_of_succ_lt_succ hi)
        (Nat.lt_of_succ_lt_succ (by simpa using hj))

theorem updateLoop_append_inv {repo rf h : String} :
    ∀ {xs zs ys : List Json} {u : Bool},
      updateLoop repo rf h (xs ++ zs) = .ok (ys, u) →
      ∃ ys1 u1 ys2 u2, updateLoop repo rf h xs = .ok (ys1, u1) ∧
        updateLoop repo rf h zs = .ok (ys2, u2) ∧ ys = ys1 ++ ys2 ∧ u = (u1 || u2) := by
  intro xs
  induction xs with
  | nil =>
    intro zs ys u hu
    exact ⟨[], false, ys, u, rfl, by simpa using hu, by simp, by simp⟩
  | cons t ts ih =>
    intro zs ys u hu
    rw [List.cons_append] at hu
    obtain ⟨t', u1, ts', u2, h1, h2, rfl, rfl⟩ := updateLoop_cons_ok hu
    obtain ⟨ys1, v1, ys2, v2, g1, g2, rfl, rfl⟩ := ih h2
    refine ⟨t' :: ys1, u1 || v1, ys2, v2, ?_, g2, by simp, by simp [Bool.or_assoc]⟩
    rw [updateLoop, h1, g1]

theorem updateLoop_flag_false {repo rf h : String} :
    ∀ {xs ys : List Json},
      updateLoop repo rf h xs = .ok (ys, false) → ys = xs := by
  intro xs
  induction xs with
  | nil => intro ys hu; rw [updateLoop] at hu; simp at hu; exact hu
  | cons t ts ih =>
    intro ys hu
    obtain ⟨t', u1, ts', u2, h1, h2, rfl, hor⟩ := updateLoop_cons_ok hu
    obtain ⟨hu1, hu2⟩ := Bool.or_eq_false_iff.mp hor.symm
    subst hu1 hu2
    rw [updateOne_flag_false h1, ih h2]

theorem updateLoop_noop {repo rf h : String} :
    ∀ {xs : List Json}, (∀ t ∈ xs, updateOne repo rf h t = .ok (t, false)) →
      updateLoop repo rf h xs = .ok (xs, false) := by
  intro xs
  induction xs with
  | nil => intro _; rfl
  | cons t ts ih =>
    intro hall
    rw [updateLoop, hall t (by simp), ih (fun s hs => hall s (by simp [hs]))]
    rfl

theorem updateLoop_flag_false_all {repo rf h : String} :
    ∀ {xs ys : List Json}, updateLoop repo rf h xs = .ok (ys, false) →
      ∀ t ∈ xs, updateOne repo rf h t = .ok (t, false) := by
  intro xs
  induction xs with
  | nil => intro ys hu t ht; exact absurd ht (by simp)
  | cons s ts ih =>
    intro ys hu t ht
    obtain ⟨t', u1, ts', u2, h1, h2, rfl, hor⟩ := updateLoop_cons_ok hu
    obtain ⟨hu1, hu2⟩ := Bool.or_eq_false_iff.mp hor.symm
    subst hu1 hu2
    rcases List.mem_cons.mp ht with rfl | ht'
    · rw [updateOne_flag_false h1] at h1
      exact h1
    · exact ih h2 t ht'

/-- Running the hash-update loop on its own output changes nothing. -/
theorem updateLoop_idem {repo rf h : String} {xs ys : List Json} {u : Bool}
    (hu : updateLoop repo rf h xs = .ok (ys, u)) :
    updateLoop repo rf h ys = .ok (ys, false) := by
  refine updateLoop_noop (fun t' ht' => ?_)
  obtain ⟨t, -, u', h'⟩ := updateLoop_mem hu t' ht'
  exact updateOne_idem h'

/-- The update loop flags a change exactly when some entry matches the
repository condition and stores a stale hash. -/
theorem updateLoop_flag_iff {repo rf h : String} :
    ∀ {xs ys : List Json} {u : Bool},
      updateLoop repo rf h xs = .ok (ys, u) →
      (u = true ↔ ∃ t ∈ xs, entryMatches repo t = .ok true ∧ hashUpToDate h t = false) := by
  intro xs
  induction xs with
  | nil =>
    intro ys u hu
    rw [updateLoop] at hu
    obtain ⟨h1, h2⟩ : ys = [] ∧ u = false := by
      constructor <;> [exact (by simpa using hu : [] = ys ∧ false = u).1.symm;
        exact (by simpa using hu : [] = ys ∧ false = u).2.symm]
    subst h1 h2
    simp
  | cons t ts ih =>
    intro ys u hu
    obtain ⟨t', u1, ts', u2, h1, h2, rfl, rfl⟩ := updateLoop_cons_ok hu
    constructor
    · intro hor
      rcases Bool.or_eq_true_iff.mp hor with hu1 | hu2
      · subst hu1
        obtain ⟨hm, hup, -, -⟩ := updateOne_flag_true h1
        exact ⟨t, by simp, hm, hup⟩
      · obtain ⟨s, hs, hrest⟩ := (ih h2).mp hu2
        exact ⟨s, by simp [hs], hrest⟩
    · rintro ⟨s, hs, hm, hup⟩
      rcases List.mem_cons.mp hs with rfl | hs'
      · obtain ⟨kvs, rfl, hc⟩ := updateOne_cases h1
        rcases hc with ⟨hm', -, -⟩ | ⟨-, hup', -, -⟩ | ⟨-, -, -, rfl⟩
        · rw [hm] at hm'; exact absurd hm' (by simp)
        · rw [hup] at hup'; exact absurd hup' (by simp)
        · simp
      · rw [(ih h2).mpr ⟨s, hs', hm, hup⟩]
        simp

/-- The update loop never touches the `id` field, so the collected id
set of its output is that of its input. -/
theorem updateLoop_extractIds {repo rf h : String} :
    ∀ {xs ys : List Json} {u : Bool},
      updateLoop repo rf h xs = .ok (ys, u) → extractIds ys = extractIds xs := by
  intro xs
  induction xs with
  | nil => intro ys u hu; rw [updateLoop] at hu; simp at hu; rw [hu.1]
  | cons t ts ih =>
    intro ys u hu
    obtain ⟨t', u1, ts', u2, h1, h2, rfl, -⟩ := updateLoop_cons_ok hu
    obtain ⟨kvs, kvs', rfl, rfl⟩ := updateOne_obj h1
    have hid : lookupKey kvs' "id" = lookupKey kvs "id" := by
      have := updateOne_preserve h1 "id" (by decide) (by decide)
      simpa [jGet] using this
    cases hidv : lookupKey kvs "id" with
    | none =>
      rw [extractIds_cons_obj_none (hid.trans hidv), extractIds_cons_obj_none hidv]
    | some v =>
      rw [extractIds_cons_obj (hid.trans hidv), extractIds_cons_obj hidv, ih h2]

/-! ### Lemmas about id-set membership and folder discovery -/

theorem idMem_append (n : String) (a b : List Json) :
    idMem n (a ++ b) = (idMem n a || idMem n b) := by
  simp [idMem, List.any_append]

theorem idMem_of_mem_str {n : String} {l : List Json} (h : Json.str n ∈ l) :
    idMem n l = true := by
  simp only [idMem, List.any_eq_true]
  exact ⟨.str n, h, by simp [pyEqStr]⟩

theorem str_not_mem_of_idMem_false {n : String} {l : List Json} (h : idMem n l = false) :
    Json.str n ∉ l := fun hm => by rw [idMem_of_mem_str hm] at h; exact absurd h (by simp)

theorem idMem_singleton (n m : String) : idMem n [Json.str m] = decide (m = n) := by
  simp [idMem, pyEqStr]

/-- Complete characterization of one run of the folder-discovery loop
(lines 81–102) started with id set `ids`: there is a duplicate-free
list `ns` of newly discovered folder names such that the loop appends
exactly the synthesized entries for `ns` in scan order, extends the id
set by them, and dirties the manifest exactly when `ns` is non-empty;
the names in `ns` are exactly the non-excluded directory names of the
listing that were not yet known. -/
theorem discover_spec (h r : String) :
    ∀ (entries : List (String × Bool)) (ids : List Json),
      ∃ ns : List String,
        discover h r entries ids =
          (ns.map (fun n => newTrinketEntry n h r), ids ++ ns.map Json.str, !ns.isEmpty) ∧
        ns.Nodup ∧
        (∀ n ∈ ns, idMem n ids = false ∧ n ∉ excludePatterns ∧ (n, true) ∈ entries) ∧
        (∀ p ∈ entries, p.1 ∉ excludePatterns → p.2 = true →
          idMem p.1 (ids ++ ns.map Json.str) = true) ∧
        (∀ n, (n, true) ∈ entries → n ∉ excludePatterns → idMem n ids = false → n ∈ ns) := by
  intro entries
  induction entries with
  | nil =>
    intro ids
    exact ⟨[], by simp [discover], by simp, by simp, by simp, by simp⟩
  | cons p rest ih =>
    intro ids
    obtain ⟨name, isDir⟩ := p
    by_cases hex : name ∈ excludePatterns
    · obtain ⟨ns, heq, hnd, hconds, hcover, hcomplete⟩ := ih ids
      refine ⟨ns, by rw [discover, if_pos hex]; exact heq, hnd, ?_, ?_, ?_⟩
      · exact fun n hn => ⟨(hconds n hn).1, (hconds n hn).2.1, by simp [(hconds n hn).2.2]⟩
      · rintro q hq hq1 hq2
        rcases List.mem_cons.mp hq with rfl | hq'
        · exact absurd hex hq1
        · exact hcover q hq' hq1 hq2
      · intro n hn hn1 hn2
        rcases List.mem_cons.mp hn with heq' | hn'
        · obtain ⟨h1, -⟩ := Prod.mk.injEq .. ▸ heq'
          exact absurd (h1 ▸ hex) hn1
        · exact hcomplete n hn' hn1 hn2
    · cases isDir with
      | false =>
        obtain ⟨ns, heq, hnd, hconds, hcover, hcomplete⟩ := ih ids
        refine ⟨ns, by rw [discover, if_neg hex]; exact heq, hnd, ?_, ?_, ?_⟩
        · exact fun n hn => ⟨(hconds n hn).1, (hconds n hn).2.1, by simp [(hconds n hn).2.2]⟩
        · rintro q hq hq1 hq2
          rcases List.mem_cons.mp hq with rfl | hq'
          · exact absurd hq2 (by simp)
          · exact hcover q hq' hq1 hq2
        · intro n hn hn1 hn2
          rcases List.mem_cons.mp hn with heq' | hn'
          · exact absurd heq' (by simp)
          · exact hcomplete n hn' hn1 hn2
      | true =>
        by_cases hmem : idMem name ids = true
        · obtain ⟨ns, heq, hnd, hconds, hcover, hcomplete⟩ := ih ids
          refine ⟨ns, by rw [discover, if_neg hex, if_pos rfl, if_pos hmem]; exact heq,
            hnd, ?_, ?_, ?_⟩
          · exact fun n hn => ⟨(hconds n hn).1, (hconds n hn).2.1, by simp [(hconds n hn).2.2]⟩
          · rintro q hq hq1 hq2
            rcases List.mem_cons.mp hq with rfl | hq'
            · rw [idMem_append, hmem]; rfl
            · exact hcover q hq' hq1 hq2
          · intro n hn hn1 hn2
            rcases List.mem_cons.mp hn with heq' | hn'
            · obtain ⟨h1, -⟩ := Prod.mk.injEq .. ▸ heq'
              rw [h1] at hn2
              rw [hn2] at hmem
              exact absurd hmem (by simp)
            · exact hcomplete n hn' hn1 hn2
        · rw [Bool.not_eq_true] at hmem
          obtain ⟨ns, heq, hnd, hconds, hcover, hcomplete⟩ := ih (ids ++ [.str name])
          refine ⟨name :: ns, ?_, ?_, ?_, ?_, ?_⟩
          · rw [discover, if_neg hex, if_pos rfl, if_neg (by simp [hmem]), heq]
            simp [List.append_assoc]
          · refine List.nodup_cons.mpr ⟨fun hc => ?_, hnd⟩
            have := (hconds name hc).1
            rw [idMem_append, idMem_singleton] at this
            simp at this
          · intro n hn
            rcases List.mem_cons.mp hn with rfl | hn'
            · exact ⟨hmem, hex, by simp⟩
            · obtain ⟨h1, h2, h3⟩ := hconds n hn'
              rw [idMem_append] at h1
              exact ⟨(Bool.or_eq_false_iff.mp h1).1, h2, by simp [h3]⟩
          · rintro q hq hq1 hq2
            rcases List.mem_cons.mp hq with rfl | hq'
            · simp only
              refine idMem_of_mem_str ?_
              simp
            · have := hcover q hq' hq1 hq2
              simpa using this
          · intro n hn hn1 hn2
            rcases List.mem_cons.mp hn with heq' | hn'
            · obtain ⟨h1, -⟩ := Prod.mk.injEq .. ▸ heq'
              exact List.mem_cons.mpr (Or.inl h1)
            · by_cases hnn : name = n
              · exact List.mem_cons.mpr (Or.inl hnn.symm)
              · refine List.mem_cons.mpr (Or.inr (hcomplete n hn' hn1 ?_))
                rw [idMem_append, hn2, idMem_singleton]
                simp [hnn]

/-! ### Lemmas about id collection and well-formed manifests -/

theorem extractIds_append {xs zs : List Json} {as bs : List Json}
    (ha : extractIds xs = .ok as) (hb : extractIds zs = .ok bs) :
    extractIds (xs ++ zs) = .ok (as ++ bs) := by
  induction xs generalizing as with
  | nil =>
    rw [extractIds] at ha
    simp only [Except.ok.injEq] at ha
    subst ha
    simpa using hb
  | cons t ts ih =>
    cases t with
    | obj kvs =>
      cases hid : lookupKey kvs "id" with
      | none =>
        rw [extractIds_cons_obj_none hid] at ha
        exact absurd ha (by simp)
      | some v =>
        rw [extractIds_cons_obj hid] at ha
        by_cases hh : hashable v = true
        · rw [if_pos hh] at ha
          cases hrec : extractIds ts with
          | error e => rw [hrec] at ha; exact absurd ha (by simp [Except.map])
          | ok ids' =>
            rw [hrec] at ha
            simp only [Except.map, Except.ok.injEq] at ha
            subst ha
            rw [List.cons_append, extractIds_cons_obj hid, if_pos hh, ih hrec]
            rfl
        · rw [if_neg hh] at ha
          exact absurd ha (by simp)
    | null => simp [extractIds] at ha
    | bool b => simp [extractIds] at ha
    | num n => simp [extractIds] at ha
    | str s => simp [extractIds] at ha
    | arr l => simp [extractIds] at ha

theorem extractIds_mem {xs ids : List Json} (h : extractIds xs = .ok ids) :
    ∀ t ∈ xs, ∃ kvs, t = .obj kvs ∧ ∃ v, lookupKey kvs "id" = some v ∧ v ∈ ids := by
  induction xs generalizing ids with
  | nil => intro t ht; exact absurd ht (by simp)
  | cons t ts ih =>
    cases t with
    | obj kvs =>
      cases hid : lookupKey kvs "id" with
      | none =>
        rw [extractIds_cons_obj_none hid] at h
        exact absurd h (by simp)
      | some v =>
        rw [extractIds_cons_obj hid] at h
        by_cases hh : hashable v = true
        · rw [if_pos hh] at h
          cases hrec : extractIds ts with
          | error e => rw [hrec] at h; exact absurd h (by simp [Except.map])
          | ok ids' =>
            rw [hrec] at h
            simp only [Except.map, Except.ok.injEq] at h
            subst h
            intro s hs
            rcases List.mem_cons.mp hs with rfl | hs'
            · exact ⟨kvs, rfl, v, hid, by simp⟩
            · obtain ⟨kvs', hk, v', hv', hvmem⟩ := ih hrec s hs'
              exact ⟨kvs', hk, v', hv', by simp [hvmem]⟩
        · rw [if_neg hh] at h
          exact absurd h (by simp)
    | null => simp [extractIds] at h
    | bool b => simp [extractIds] at h
    | num n => simp [extractIds] at h
    | str s => simp [extractIds] at h
    | arr l => simp [extractIds] at h

/-- The `id` field of a synthesized entry is its folder name. -/
theorem newTrinketEntry_id (n h r : String) :
    lookupKey [("id", Json.str n), ("name", .str (pyTitle (dashToSpace n))),
      ("appUrl", .str ("https://Nishimba.github.io/TrinketCollection/" ++ n ++ "/index.html")),
      ("iconUrl", .str ("https://Nishimba.github.io/TrinketCollection/" ++ n ++ "/icon.png")),
      ("entryFile", .str ("https://Nishimba.github.io/TrinketCollection/" ++ n ++ "/index.html")),
      ("hash", .str h), ("ref", .str r)] "id" = some (.str n) := rfl

theorem extractIds_newEntries (h r : String) (ns : List String) :
    extractIds (ns.map (fun n => newTrinketEntry n h r)) = .ok (ns.map Json.str) := by
  induction ns with
  | nil => rfl
  | cons n ns ih =>
    show Except.map (fun ids => Json.str n :: ids)
        (extractIds (List.map (fun n => newTrinketEntry n h r) ns)) = _
    rw [ih]
    rfl

theorem wf_updateOne {repo rf h : String} {t : Json} (hwf : wfEntry t = true) :
    ∃ t' u, updateOne repo rf h t = .ok (t', u) := by
  cases t with
  | obj kvs =>
    rw [wfEntry, Bool.and_eq_true] at hwf
    have hb : ∃ b, pyIn repo ((lookupKey kvs "appUrl").getD (.str "")) = .ok b := by
      cases happ : lookupKey kvs "appUrl" with
      | none => exact ⟨strContains repo "", by simp [pyIn]⟩
      | some v =>
        rw [happ] at hwf
        cases v with
        | str s => exact ⟨strContains repo s, by simp [pyIn]⟩
        | null => exact absurd hwf.2 (by simp)
        | bool b => exact absurd hwf.2 (by simp)
        | num n => exact absurd hwf.2 (by simp)
        | arr l => exact absurd hwf.2 (by simp)
        | obj kvs' => exact absurd hwf.2 (by simp)
    obtain ⟨b, hb⟩ := hb
    cases b with
    | false => exact ⟨.obj kvs, false, by rw [updateOne, hb]⟩
    | true =>
      by_cases hh : (lookupKey kvs "hash").any (fun v => pyEqStr v h) = true
      · exact ⟨.obj kvs, false, by rw [updateOne, hb, if_pos hh]⟩
      · exact ⟨.obj (setKey (setKey kvs "hash" (.str h)) "ref" (.str rf)), true,
          by rw [updateOne, hb, if_neg hh]⟩
  | null => exact absurd hwf (by simp [wfEntry])
  | bool b => exact absurd hwf (by simp [wfEntry])
  | num n => exact absurd hwf (by simp [wfEntry])
  | str s => exact absurd hwf (by simp [wfEntry])
  | arr l => exact absurd hwf (by simp [wfEntry])

theorem updateOne_wf {repo rf h : String} {t t' : Json} {u : Bool}
    (hwf : wfEntry t = true) (hu : updateOne repo rf h t = .ok (t', u)) :
    wfEntry t' = true := by
  obtain ⟨kvs, kvs', rfl, rfl⟩ := updateOne_obj hu
  rw [wfEntry, Bool.and_eq_true] at hwf ⊢
  have hid : lookupKey kvs' "id" = lookupKey kvs "id" := by
    simpa [jGet] using updateOne_preserve hu "id" (by decide) (by decide)
  have happ : lookupKey kvs' "appUrl" = lookupKey kvs "appUrl" := by
    simpa [jGet] using updateOne_preserve hu "appUrl" (by decide) (by decide)
  rw [hid, happ]
  exact hwf

theorem wf_updateLoop {repo rf h : String} :
    ∀ {xs : List Json}, wfManifest xs = true →
      ∃ ys u, updateLoop repo rf h xs = .ok (ys, u) ∧ wfManifest ys = true := by
  intro xs
  induction xs with
  | nil => intro _; exact ⟨[], false, rfl, rfl⟩
  | cons t ts ih =>
    intro hwf
    rw [wfManifest, List.all_cons, Bool.and_eq_true] at hwf
    obtain ⟨t', u1, h1⟩ := @wf_updateOne repo rf h t hwf.1
    obtain ⟨ts', u2, h2, hwf2⟩ := ih hwf.2
    refine ⟨t' :: ts', u1 || u2, by rw [updateLoop, h1, h2], ?_⟩
    rw [wfManifest, List.all_cons, Bool.and_eq_true]
    exact ⟨updateOne_wf hwf.1 h1, hwf2⟩

theorem wf_newTrinketEntry (n h r : String) : wfEntry (newTrinketEntry n h r) = true := rfl

theorem wfManifest_append {xs zs : List Json} (hx : wfManifest xs = true)
    (hz : wfManifest zs = true) : wfManifest (xs ++ zs) = true := by
  rw [wfManifest] at hx hz ⊢
  rw [List.all_append, hx, hz]
  rfl

theorem wfManifest_newEntries (h r : String) (ns : List String) :
    wfManifest (ns.map (fun n => newTrinketEntry n h r)) = true := by
  induction ns with
  | nil => rfl
  | cons n ns ih =>
    rw [List.map_cons, wfManifest, List.all_cons, wf_newTrinketEntry]
    exact ih

/-! ### Bridging lemmas about the whole run -/

/-- When the configuration is present, the manifest parses, the first
download succeeds and the scan finds a root, the run is exactly the
reconciliation phase. -/
theorem runScript_eq_reconcile {cfg : Config} {hashFn : List Nat → String} {w : World}
    {raw : String} {xs ids : List Json} {bytes : List Nat} {entries : List (String × Bool)}
    (hc : (truthy cfg.repo && truthy cfg.ref) = true)
    (hm : w.manifest = .jsonArr raw xs)
    (hids : extractIds xs = .ok ids)
    (hf : w.fetch1 = some bytes)
    (hs : w.scan = .ok true entries) :
    runScript cfg hashFn w =
      reconcile (cfg.repo.getD "") (cfg.ref.getD "") (hashFn bytes) raw xs ids entries := by
  simp [runScript, hc, hm, hids, hf, hs]

/-- Reduction of the reconciliation phase once its two loops are
computed. -/
theorem reconcile_eq {repo rfs nh raw : String} {xs ids : List Json}
    {entries : List (String × Bool)} {ap idsF : List Json} {fl : Bool}
    {ys : List Json} {u : Bool}
    (hd : discover nh rfs entries ids = (ap, idsF, fl))
    (hu : updateLoop repo rfs nh (xs ++ ap) = .ok (ys, u)) :
    reconcile repo rfs nh raw xs ids entries =
      if fl || u then ⟨.success false, .jsonArr (dumpJson (.arr ys)) ys, true, true, true⟩
      else ⟨.success true, .jsonArr raw xs, true, true, false⟩ := by
  rw [reconcile, hd]
  simp only [hu]

/-- Global inversion of a run with respect to the manifest file: either
nothing was written and the file is untouched, or the run succeeded
through the write-back branch and the file holds the serialized output
of the two loops. -/
theorem runScript_write_inv (cfg : Config) (hashFn : List Nat → String) (w : World) :
    ((runScript cfg hashFn w).wrote = false ∧ (runScript cfg hashFn w).file = w.manifest) ∨
    ((runScript cfg hashFn w).wrote = true ∧
      ∃ raw xs ids bytes entries ap idsF fl ys u,
        w.manifest = .jsonArr raw xs ∧
        extractIds xs = .ok ids ∧
        w.fetch1 = some bytes ∧
        w.scan = .ok true entries ∧
        discover (hashFn bytes) (cfg.ref.getD "") entries ids = (ap, idsF, fl) ∧
        updateLoop (cfg.repo.getD "") (cfg.ref.getD "") (hashFn bytes) (xs ++ ap) = .ok (ys, u) ∧
        (fl || u) = true ∧
        (runScript cfg hashFn w).outcome = .success false ∧
        (runScript cfg hashFn w).file = .jsonArr (dumpJson (.arr ys)) ys) := by
  by_cases hc : (truthy cfg.repo && truthy cfg.ref) = true
  · cases hman : w.manifest with
    | missing => left; simp [runScript, hc, hman]
    | invalidJson raw => left; simp [runScript, hc, hman]
    | jsonArr raw xs =>
      cases hids : extractIds xs with
      | error e => left; simp [runScript, hc, hman, hids]
      | ok ids =>
        cases hf : w.fetch1 with
        | none => left; simp [runScript, hc, hman, hids, hf]
        | some bytes =>
          cases hs : w.scan with
          | transportFail => left; simp [runScript, hc, hman, hids, hf, hs]
          | badZip => left; simp [runScript, hc, hman, hids, hf, hs]
          | unexpectedErr => left; simp [runScript, hc, hman, hids, hf, hs]
          | ok hasRoot entries =>
            cases hasRoot with
            | false => left; simp [runScript, hc, hman, hids, hf, hs]
            | true =>
              have hrun := @runScript_eq_reconcile cfg hashFn w raw xs ids bytes
                entries hc hman hids hf hs
              obtain ⟨⟨ap, idsF, fl⟩, hd⟩ :
                  ∃ p, discover (hashFn bytes) (cfg.ref.getD "") entries ids = p := ⟨_, rfl⟩
              cases hu : updateLoop (cfg.repo.getD "") (cfg.ref.getD "")
                  (hashFn bytes) (xs ++ ap) with
              | error e =>
                left
                rw [hrun, reconcile, hd]
                simp [hu]
              | ok p =>
                obtain ⟨ys, u⟩ := p
                rw [hrun, reconcile_eq hd hu]
                by_cases hfl : (fl || u) = true
                · right
                  rw [if_pos hfl]
                  exact ⟨rfl, raw, xs, ids, bytes, entries, ap, idsF, fl, ys, u,
                    rfl, hids, rfl, rfl, hd, hu, hfl, rfl, rfl⟩
                · left
                  rw [Bool.not_eq_true] at hfl
                  rw [hfl]
                  simp
  · left
    rw [Bool.not_eq_true] at hc
    simp [runScript, hc]

/-! ### Error-handling claims -/

/-- When every element is a dict whose `id` value, where present, is
hashable, and some element lacks an `id` key, the set comprehension of
line 43 raises `KeyError` (the first error it can hit). -/
theorem extractIds_keyError {xs : List Json}
    (hobj : ∀ t ∈ xs, ∃ kvs, t = .obj kvs ∧
      ∀ v, lookupKey kvs "id" = some v → hashable v = true)
    (hbad : ∃ t ∈ xs, ∃ kvs, t = .obj kvs ∧ lookupKey kvs "id" = none) :
    extractIds xs = .error .keyError := by
  induction xs with
  | nil => simp at hbad
  | cons t ts ih =>
    obtain ⟨kvs, rfl, hhash⟩ := hobj t (List.mem_cons_self t ts)
    cases hid : lookupKey kvs "id" with
    | none => exact extractIds_cons_obj_none hid
    | some v =>
      have hbad' : ∃ t ∈ ts, ∃ kvs', t = .obj kvs' ∧ lookupKey kvs' "id" = none := by
        obtain ⟨s, hs, kvs', hk, hnone⟩ := hbad
        rcases List.mem_cons.mp hs with rfl | hs'
        · obtain rfl : kvs = kvs' := Json.obj.inj hk
          rw [hid] at hnone
          exact absurd hnone (by simp)
        · exact ⟨s, hs', kvs', hk, hnone⟩
      rw [extractIds_cons_obj hid, if_pos (hhash v hid),
        ih (fun s hs => hobj s (List.mem_cons_of_mem _ hs)) hbad']
      rfl

/-- C9: without both required environment variables the run exits with
code 1 before any network request or manifest-file access, and the
manifest file is not mutated. -/
theorem claim9_env_missing_aborts (cfg : Config) (hashFn : List Nat → String) (w : World)
    (h : cfg.repo = none ∨ cfg.ref = none) :
    (runScript cfg hashFn w).outcome = .fatal 1 ∧
    (runScript cfg hashFn w).file = w.manifest ∧
    (runScript cfg hashFn w).networkAttempted = false ∧
    (runScript cfg hashFn w).manifestAccessed = false ∧
    (runScript cfg hashFn w).wrote = false := by
  have hc : (truthy cfg.repo && truthy cfg.ref) = false := by
    rcases h with h | h <;> rw [h] <;> simp [truthy]
  simp [runScript, hc]

theorem claim9_witness :
    ((⟨none, some "main"⟩ : Config).repo = none ∨
      (⟨none, some "main"⟩ : Config).ref = none) ∧
    ((runScript ⟨none, some "main"⟩ (fun _ => "h")
        ⟨.jsonArr "[]" [], some [], .ok true []⟩).outcome = .fatal 1 ∧
     (runScript ⟨none, some "main"⟩ (fun _ => "h")
        ⟨.jsonArr "[]" [], some [], .ok true []⟩).file = .jsonArr "[]" [] ∧
     (runScript ⟨none, some "main"⟩ (fun _ => "h")
        ⟨.jsonArr "[]" [], some [], .ok true []⟩).networkAttempted = false ∧
     (runScript ⟨none, some "main"⟩ (fun _ => "h")
        ⟨.jsonArr "[]" [], some [], .ok true []⟩).manifestAccessed = false ∧
     (runScript ⟨none, some "main"⟩ (fun _ => "h")
        ⟨.jsonArr "[]" [], some [], .ok true []⟩).wrote = false) :=
  ⟨Or.inl rfl, claim9_env_missing_aborts _ _ _ (Or.inl rfl)⟩

/-- C8: a missing or unparseable manifest file makes the run exit with
code 1, leaves the file untouched, and never attempts a network
request. -/
theorem claim8_unreadable_manifest_aborts (cfg : Config) (hashFn : List Nat → String)
    (w : World) (h : w.manifest = .missing ∨ ∃ raw, w.manifest = .invalidJson raw) :
    (runScript cfg hashFn w).outcome = .fatal 1 ∧
    (runScript cfg hashFn w).file = w.manifest ∧
    (runScript cfg hashFn w).networkAttempted = false ∧
    (runScript cfg hashFn w).wrote = false := by
  by_cases hc : (truthy cfg.repo && truthy cfg.ref) = true
  · rcases h with h | ⟨raw, h⟩ <;> simp [runScript, hc, h]
  · rw [Bool.not_eq_true] at hc
    simp [runScript, hc]

theorem claim8_witness :
    ((⟨.invalidJson "not json", some [], .ok true []⟩ : World).manifest = .missing ∨
      ∃ raw, (⟨.invalidJson "not json", some [], .ok true []⟩ : World).manifest
        = .invalidJson raw) ∧
    ((runScript ⟨some "octo/repo", some "main"⟩ (fun _ => "h")
        ⟨.invalidJson "not json", some [], .ok true []⟩).outcome = .fatal 1 ∧
     (runScript ⟨some "octo/repo", some "main"⟩ (fun _ => "h")
        ⟨.invalidJson "not json", some [], .ok true []⟩).file = .invalidJson "not json" ∧
     (runScript ⟨some "octo/repo", some "main"⟩ (fun _ => "h")
        ⟨.invalidJson "not json", some [], .ok true []⟩).networkAttempted = false ∧
     (runScript ⟨some "octo/repo", some "main"⟩ (fun _ => "h")
        ⟨.invalidJson "not json", some [], .ok true []⟩).wrote = false) :=
  ⟨Or.inr ⟨"not json", rfl⟩,
    claim8_unreadable_manifest_aborts _ _ _ (Or.inr ⟨"not json", rfl⟩)⟩

/-- C7: a transport failure during the initial repository-hash
computation (the first download returns no result) makes the run exit
with code 1 and leaves the manifest file's content unaltered. -/
theorem claim7_hash_failure_aborts (cfg : Config) (hashFn : List Nat → String) (w : World)
    (raw : String) (xs ids : List Json)
    (hc : (truthy cfg.repo && truthy cfg.ref) = true)
    (hm : w.manifest = .jsonArr raw xs)
    (hids : extractIds xs = .ok ids)
    (hf : w.fetch1 = none) :
    (runScript cfg hashFn w).outcome = .fatal 1 ∧
    (runScript cfg hashFn w).file = w.manifest ∧
    (runScript cfg hashFn w).wrote = false := by
  simp [runScript, hc, hm, hids, hf]

theorem claim7_witness :
    (truthy (some "octo/repo") && truthy (some "main")) = true ∧
    (⟨.jsonArr "[]" [], none, .badZip⟩ : World).manifest = .jsonArr "[]" [] ∧
    extractIds [] = .ok [] ∧
    (⟨.jsonArr "[]" [], none, .badZip⟩ : World).fetch1 = none ∧
    ((runScript ⟨some "octo/repo", some "main"⟩ (fun _ => "h")
        ⟨.jsonArr "[]" [], none, .badZip⟩).outcome = .fatal 1 ∧
     (runScript ⟨some "octo/repo", some "main"⟩ (fun _ => "h")
        ⟨.jsonArr "[]" [], none, .badZip⟩).file = .jsonArr "[]" [] ∧
     (runScript ⟨some "octo/repo", some "main"⟩ (fun _ => "h")
        ⟨.jsonArr "[]" [], none, .badZip⟩).wrote = false) :=
  ⟨rfl, rfl, rfl, rfl,
    claim7_hash_failure_aborts _ _ _ "[]" [] [] rfl rfl rfl rfl⟩

/-- C10 is false as stated: this manifest parses as a JSON array and
its second element lacks an `id` key, yet the run dies with an
unhandled `TypeError`, not `KeyError` — the first element's `id` value
is a JSON list, and hashing it into the line 43 set raises
`TypeError: unhashable type` before the id-less element is reached. -/
theorem claim10_counterexample :
    lookupKey [("name", Json.str "x")] "id" = none ∧
    (runScript ⟨some "octo/repo", some "main"⟩ (fun _ => "h")
      ⟨.jsonArr "junk" [Json.obj [("id", Json.arr [])],
          Json.obj [("name", Json.str "x")]], some [], .ok true []⟩).outcome
      = .uncaught .typeError ∧
    (runScript ⟨some "octo/repo", some "main"⟩ (fun _ => "h")
      ⟨.jsonArr "junk" [Json.obj [("id", Json.arr [])],
          Json.obj [("name", Json.str "x")]], some [], .ok true []⟩).outcome
      ≠ .uncaught .keyError :=
  ⟨rfl, rfl, by decide⟩

/-- C10 amended: a manifest that parses as an array of dicts whose
`id` values, where present, are hashable, and of which one dict lacks
an `id` key, makes the run die with an unhandled `KeyError` — an
outcome distinct from every logged `exit(1)` path — before any network
request, leaving the file untouched.  (With an unhashable `id` value
earlier in the array the run instead dies with an unhandled
`TypeError`, as the counterexample shows.) -/
theorem claim10_missing_id_uncaught (cfg : Config) (hashFn : List Nat → String) (w : World)
    (raw : String) (xs : List Json)
    (hc : (truthy cfg.repo && truthy cfg.ref) = true)
    (hm : w.manifest = .jsonArr raw xs)
    (hobj : ∀ t ∈ xs, ∃ kvs, t = .obj kvs ∧
      ∀ v, lookupKey kvs "id" = some v → hashable v = true)
    (hbad : ∃ t ∈ xs, ∃ kvs, t = .obj kvs ∧ lookupKey kvs "id" = none) :
    (runScript cfg hashFn w).outcome = .uncaught .keyError ∧
    (∀ c, (runScript cfg hashFn w).outcome ≠ .fatal c) ∧
    (runScript cfg hashFn w).file = w.manifest ∧
    (runScript cfg hashFn w).networkAttempted = false ∧
    (runScript cfg hashFn w).wrote = false := by
  have hids := extractIds_keyError hobj hbad
  simp [runScript, hc, hm, hids]

theorem claim10_witness :
    (truthy (some "octo/repo") && truthy (some "main")) = true ∧
    (∀ t ∈ [Json.obj [("name", Json.str "x")]], ∃ kvs, t = Json.obj kvs ∧
      ∀ v, lookupKey kvs "id" = some v → hashable v = true) ∧
    (∃ t ∈ [Json.obj [("name", Json.str "x")]],
      ∃ kvs, t = Json.obj kvs ∧ lookupKey kvs "id" = none) ∧
    ((runScript ⟨some "octo/repo", some "main"⟩ (fun _ => "h")
        ⟨.jsonArr "junk" [Json.obj [("name", Json.str "x")]], some [], .ok true []⟩).outcome
          = .uncaught .keyError ∧
     (∀ c, (runScript ⟨some "octo/repo", some "main"⟩ (fun _ => "h")
        ⟨.jsonArr "junk" [Json.obj [("name", Json.str "x")]], some [], .ok true []⟩).outcome
          ≠ .fatal c) ∧
     (runScript ⟨some "octo/repo", some "main"⟩ (fun _ => "h")
        ⟨.jsonArr "junk" [Json.obj [("name", Json.str "x")]], some [], .ok true []⟩).file
          = .jsonArr "junk" [Json.obj [("name", Json.str "x")]] ∧
     (runScript ⟨some "octo/repo", some "main"⟩ (fun _ => "h")
        ⟨.jsonArr "junk" [Json.obj [("name", Json.str "x")]],
          some [], .ok true []⟩).networkAttempted = false ∧
     (runScript ⟨some "octo/repo", some "main"⟩ (fun _ => "h")
        ⟨.jsonArr "junk" [Json.obj [("name", Json.str "x")]], some [], .ok true []⟩).wrote
          = false) := by
  have hobj : ∀ t ∈ [Json.obj [("name", Json.str "x")]], ∃ kvs, t = Json.obj kvs ∧
      ∀ v, lookupKey kvs "id" = some v → hashable v = true := by
    intro t ht
    rw [List.mem_singleton] at ht
    refine ⟨_, ht, fun v hv => ?_⟩
    exact absurd hv (by simp [lookupKey])
  have hbad : ∃ t ∈ [Json.obj [("name", Json.str "x")]],
      ∃ kvs, t = Json.obj kvs ∧ lookupKey kvs "id" = none :=
    ⟨_, List.mem_singleton_self _, _, rfl, rfl⟩
  exact ⟨rfl, hobj, hbad,
    claim10_missing_id_uncaught _ _ _ "junk" _ rfl rfl hobj hbad⟩

/-! ### Frame and invariant claims -/

/-- C3: in every run on a parsed manifest, the final file's entry list
is the original list (pointwise unchanged outside `hash` and `ref`)
followed by the appended entries: nothing is removed, the relative
order of pre-existing entries is kept, and every field other than
`hash` and `ref` of a pre-existing entry is untouched. -/
theorem claim3_frame (cfg : Config) (hashFn : List Nat → String) (w : World)
    (raw : String) (xs : List Json) (hm : w.manifest = .jsonArr raw xs) :
    ∃ pre post, fileEntries (runScript cfg hashFn w).file = pre ++ post ∧
      pre.length = xs.length ∧
      ∀ i (hi : i < pre.length) (hj : i < xs.length) (k : String),
        k ≠ "hash" → k ≠ "ref" →
          jGet (pre.get ⟨i, hi⟩) k = jGet (xs.get ⟨i, hj⟩) k := by
  rcases runScript_write_inv cfg hashFn w with ⟨-, hfile⟩ |
    ⟨-, raw', xs', ids, bytes, entries, ap, idsF, fl, ys, u,
      hman, hids, hf, hs, hd, hu, hfl, hout, hfile⟩
  · refine ⟨xs, [], ?_, rfl, ?_⟩
    · rw [hfile, hm]
      simp [fileEntries]
    · intro i hi hj k _ _
      rfl
  · rw [hm] at hman
    injection hman with hraw hxs
    subst hraw hxs
    obtain ⟨ys1, u1, ys2, u2, g1, g2, rfl, -⟩ := updateLoop_append_inv hu
    refine ⟨ys1, ys2, by rw [hfile]; rfl, updateLoop_length g1, ?_⟩
    intro i hi hj k hk1 hk2
    obtain ⟨ui, hone⟩ := updateLoop_pointwise g1 i hj hi
    exact updateOne_preserve hone k hk1 hk2

theorem claim3_witness :
    (⟨.jsonArr "[]" [Json.obj [("id", Json.str "a"), ("appUrl", Json.str "u"),
        ("hash", Json.str "x"), ("ref", Json.str "r")]], some [], .ok true [("b", true)]⟩
      : World).manifest
      = .jsonArr "[]" [Json.obj [("id", Json.str "a"), ("appUrl", Json.str "u"),
          ("hash", Json.str "x"), ("ref", Json.str "r")]] ∧
    (∃ pre post,
      fileEntries (runScript ⟨some "octo/repo", some "main"⟩ (fun _ => "h")
          ⟨.jsonArr "[]" [Json.obj [("id", Json.str "a"), ("appUrl", Json.str "u"),
            ("hash", Json.str "x"), ("ref", Json.str "r")]],
            some [], .ok true [("b", true)]⟩).file = pre ++ post ∧
      pre.length = [Json.obj [("id", Json.str "a"), ("appUrl", Json.str "u"),
        ("hash", Json.str "x"), ("ref", Json.str "r")]].length ∧
      ∀ i (hi : i < pre.length)
        (hj : i < [Json.obj [("id", Json.str "a"), ("appUrl", Json.str "u"),
          ("hash", Json.str "x"), ("ref", Json.str "r")]].length) (k : String),
        k ≠ "hash" → k ≠ "ref" →
          jGet (pre.get ⟨i, hi⟩) k
            = jGet ([Json.obj [("id", Json.str "a"), ("appUrl", Json.str "u"),
                ("hash", Json.str "x"), ("ref", Json.str "r")]].get ⟨i, hj⟩) k) :=
  ⟨rfl, claim3_frame _ _ _ _ _ rfl⟩

/-- C6: a manifest whose ids are pairwise distinct keeps pairwise
distinct ids through any run: the discovery loop's id set prevents any
duplicate insertion. -/
theorem claim6_id_uniqueness (cfg : Config) (hashFn : List Nat → String) (w : World)
    (raw : String) (xs ids0 : List Json)
    (hm : w.manifest = .jsonArr raw xs)
    (hids : extractIds xs = .ok ids0)
    (hnd : ids0.Nodup) :
    ∃ ids1, extractIds (fileEntries (runScript cfg hashFn w).file) = .ok ids1 ∧
      ids1.Nodup := by
  rcases runScript_write_inv cfg hashFn w with ⟨-, hfile⟩ |
    ⟨-, raw', xs', ids, bytes, entries, ap, idsF, fl, ys, u,
      hman, hids', hf, hs, hd, hu, hfl, hout, hfile⟩
  · rw [hfile, hm]
    exact ⟨ids0, by simpa [fileEntries] using hids, hnd⟩
  · rw [hm] at hman
    injection hman with hraw hxs
    subst hraw hxs
    obtain rfl : ids0 = ids := by
      rw [hids] at hids'
      exact Except.ok.inj hids'
    obtain ⟨ns, heq, hnsnd, hconds, -, -⟩ := discover_spec (hashFn bytes) (cfg.ref.getD "")
      entries ids0
    rw [heq] at hd
    obtain ⟨rfl, -, -⟩ : ns.map (fun n => newTrinketEntry n (hashFn bytes)
        (cfg.ref.getD "")) = ap ∧ ids0 ++ ns.map Json.str = idsF ∧ (!ns.isEmpty) = fl := by
      refine ⟨?_, ?_, ?_⟩ <;> [exact congrArg (·.1) hd; exact congrArg (·.2.1) hd;
        exact congrArg (·.2.2) hd]
    rw [hfile]
    refine ⟨ids0 ++ ns.map Json.str, ?_, ?_⟩
    · show extractIds ys = _
      rw [updateLoop_extractIds hu,
        extractIds_append hids (extractIds_newEntries (hashFn bytes) (cfg.ref.getD "") ns)]
    · rw [List.nodup_append]
      refine ⟨hnd, hnsnd.map (fun a b hab => Json.str.inj hab), ?_⟩
      intro v hv hv'
      obtain ⟨n, hn, rfl⟩ := List.mem_map.mp hv'
      exact str_not_mem_of_idMem_false (hconds n hn).1 hv

theorem claim6_witness :
    (⟨.jsonArr "[]" [Json.obj [("id", Json.str "a")], Json.obj [("id", Json.str "b")]],
        some [], .ok true [("a", true), ("c", true)]⟩ : World).manifest
      = .jsonArr "[]" [Json.obj [("id", Json.str "a")], Json.obj [("id", Json.str "b")]] ∧
    extractIds [Json.obj [("id", Json.str "a")], Json.obj [("id", Json.str "b")]]
      = .ok [Json.str "a", Json.str "b"] ∧
    [Json.str "a", Json.str "b"].Nodup ∧
    (∃ ids1,
      extractIds (fileEntries (runScript ⟨some "octo/repo", some "main"⟩ (fun _ => "h")
        ⟨.jsonArr "[]" [Json.obj [("id", Json.str "a")], Json.obj [("id", Json.str "b")]],
          some [], .ok true [("a", true), ("c", true)]⟩).file) = .ok ids1 ∧
      ids1.Nodup) := by
  have hnd : [Json.str "a", Json.str "b"].Nodup := by
    simp
  exact ⟨rfl, rfl, hnd, claim6_id_uniqueness _ _ _ "[]" _ _ rfl rfl hnd⟩

/-! ### Properties of freshly synthesized entries -/

theorem jGet_newTrinketEntry_hash (n h r : String) :
    jGet (newTrinketEntry n h r) "hash" = some (.str h) := by
  simp [newTrinketEntry, jGet, lookupKey]

theorem jGet_newTrinketEntry_id (n h r : String) :
    jGet (newTrinketEntry n h r) "id" = some (.str n) := by
  simp [newTrinketEntry, jGet, lookupKey]

theorem newTrinketEntry_hashUpToDate (n h r : String) :
    hashUpToDate h (newTrinketEntry n h r) = true := by
  rw [hashUpToDate, jGet_newTrinketEntry_hash]
  simp [Option.any, pyEqStr]

theorem entryMatches_newTrinketEntry (repo n h r : String) :
    entryMatches repo (newTrinketEntry n h r) =
      .ok (strContains repo
        ("https://Nishimba.github.io/TrinketCollection/" ++ n ++ "/index.html")) := by
  simp [newTrinketEntry, entryMatches, lookupKey, pyIn]

/-- A freshly appended entry already carries the new digest, so the
hash-update loop leaves it untouched. -/
theorem updateOne_newEntry (repo rf n h r : String) :
    updateOne repo rf h (newTrinketEntry n h r) = .ok (newTrinketEntry n h r, false) := by
  cases hb : strContains repo
      ("https://Nishimba.github.io/TrinketCollection/" ++ n ++ "/index.html") with
  | false =>
    exact updateOne_skip_of_not_matching (by rw [entryMatches_newTrinketEntry, hb])
  | true =>
    exact updateOne_skip_of_uptodate (by rw [entryMatches_newTrinketEntry, hb])
      (newTrinketEntry_hashUpToDate n h r)

theorem updateLoop_newEntries (repo rf h r : String) (ns : List String) :
    updateLoop repo rf h (ns.map (fun n => newTrinketEntry n h r)) =
      .ok (ns.map (fun n => newTrinketEntry n h r), false) := by
  refine updateLoop_noop ?_
  intro t ht
  obtain ⟨n, -, rfl⟩ := List.mem_map.mp ht
  exact updateOne_newEntry repo rf n h r

/-! ### C4: the write-back happens exactly on mutation -/

/-- C4: the manifest file is rewritten exactly when a mutation occurred
(a new entry was appended, or an existing matching entry's stored hash
differed from the computed digest); on a write the whole entry
sequence is serialized (2-space indentation, replacing the prior
content), and on a no-op the file is untouched. -/
theorem claim4_write_iff_mutation (cfg : Config) (hashFn : List Nat → String) (w : World)
    (raw : String) (xs ids : List Json) (bytes : List Nat)
    (entries : List (String × Bool)) (ap idsF : List Json) (fl : Bool)
    (ys : List Json) (u : Bool)
    (hc : (truthy cfg.repo && truthy cfg.ref) = true)
    (hm : w.manifest = .jsonArr raw xs)
    (hids : extractIds xs = .ok ids)
    (hf : w.fetch1 = some bytes)
    (hs : w.scan = .ok true entries)
    (hd : discover (hashFn bytes) (cfg.ref.getD "") entries ids = (ap, idsF, fl))
    (hu : updateLoop (cfg.repo.getD "") (cfg.ref.getD "") (hashFn bytes) (xs ++ ap)
      = .ok (ys, u)) :
    ((runScript cfg hashFn w).wrote = true ↔
      (ap ≠ [] ∨ ∃ t ∈ xs, entryMatches (cfg.repo.getD "") t = .ok true ∧
        hashUpToDate (hashFn bytes) t = false)) ∧
    ((runScript cfg hashFn w).wrote = true →
      (runScript cfg hashFn w).file = .jsonArr (dumpJson (.arr ys)) ys) ∧
    ((runScript cfg hashFn w).wrote = false →
      (runScript cfg hashFn w).file = w.manifest) := by
  rw [runScript_eq_reconcile hc hm hids hf hs, reconcile_eq hd hu, hm]
  obtain ⟨ns, heq, -, hconds, -, -⟩ :=
    discover_spec (hashFn bytes) (cfg.ref.getD "") entries ids
  rw [heq] at hd
  have hap : ns.map (fun n => newTrinketEntry n (hashFn bytes) (cfg.ref.getD "")) = ap :=
    congrArg (fun p => p.1) hd
  have hfl : (!ns.isEmpty) = fl := congrArg (fun p => p.2.2) hd
  by_cases hone : (fl || u) = true
  · rw [if_pos hone]
    refine ⟨⟨fun _ => ?_, fun _ => rfl⟩, fun _ => rfl, by simp⟩
    rcases Bool.or_eq_true_iff.mp hone with hfl' | hu'
    · left
      rw [← hap]
      subst hfl'
      rcases ns with - | ⟨n, ns'⟩
      · exact absurd hfl (by simp)
      · simp
    · obtain ⟨t, ht, hmatch, hstale⟩ := (updateLoop_flag_iff hu).mp hu'
      rcases List.mem_append.mp ht with ht' | ht'
      · exact Or.inr ⟨t, ht', hmatch, hstale⟩
      · rw [← hap] at ht'
        obtain ⟨n, -, rfl⟩ := List.mem_map.mp ht'
        rw [newTrinketEntry_hashUpToDate] at hstale
        exact absurd hstale (by simp)
  · rw [Bool.not_eq_true] at hone
    rw [hone]
    obtain ⟨hfl', hu'⟩ := Bool.or_eq_false_iff.mp hone
    refine ⟨⟨fun hw => absurd hw (by simp), fun hr => ?_⟩, fun hw => absurd hw (by simp),
      fun _ => rfl⟩
    exfalso
    rcases hr with hap' | ⟨t, ht, hmatch, hstale⟩
    · subst hfl'
      rcases ns with - | ⟨n, ns'⟩
      · rw [← hap] at hap'
        exact hap' rfl
      · exact absurd hfl (by simp)
    · have : u = true := (updateLoop_flag_iff hu).mpr
        ⟨t, List.mem_append_left _ ht, hmatch, hstale⟩
      rw [this] at hu'
      exact absurd hu' (by simp)

theorem claim4_witness :
    (truthy (some "octo/repo") && truthy (some "main")) = true ∧
    (⟨.jsonArr "[]" [], some [], .ok true [("pack-a", true)]⟩ : World).manifest
      = .jsonArr "[]" [] ∧
    extractIds [] = .ok [] ∧
    discover "h" "main" [("pack-a", true)] []
      = ([newTrinketEntry "pack-a" "h" "main"], [Json.str "pack-a"], true) ∧
    updateLoop "octo/repo" "main" "h" ([] ++ [newTrinketEntry "pack-a" "h" "main"])
      = .ok ([newTrinketEntry "pack-a" "h" "main"], false) ∧
    (((runScript ⟨some "octo/repo", some "main"⟩ (fun _ => "h")
        ⟨.jsonArr "[]" [], some [], .ok true [("pack-a", true)]⟩).wrote = true ↔
      ([newTrinketEntry "pack-a" "h" "main"] ≠ ([] : List Json) ∨
        ∃ t ∈ ([] : List Json), entryMatches "octo/repo" t = .ok true ∧
          hashUpToDate "h" t = false)) ∧
     ((runScript ⟨some "octo/repo", some "main"⟩ (fun _ => "h")
        ⟨.jsonArr "[]" [], some [], .ok true [("pack-a", true)]⟩).wrote = true →
      (runScript ⟨some "octo/repo", some "main"⟩ (fun _ => "h")
        ⟨.jsonArr "[]" [], some [], .ok true [("pack-a", true)]⟩).file
        = .jsonArr (dumpJson (.arr [newTrinketEntry "pack-a" "h" "main"]))
            [newTrinketEntry "pack-a" "h" "main"]) ∧
     ((runScript ⟨some "octo/repo", some "main"⟩ (fun _ => "h")
        ⟨.jsonArr "[]" [], some [], .ok true [("pack-a", true)]⟩).wrote = false →
      (runScript ⟨some "octo/repo", some "main"⟩ (fun _ => "h")
        ⟨.jsonArr "[]" [], some [], .ok true [("pack-a", true)]⟩).file
        = (⟨.jsonArr "[]" [], some [], .ok true [("pack-a", true)]⟩ : World).manifest)) := by
  refine ⟨rfl, rfl, rfl, rfl, rfl, ?_⟩
  exact claim4_write_iff_mutation _ _ _ "[]" [] [] [] [("pack-a", true)]
    [newTrinketEntry "pack-a" "h" "main"] [Json.str "pack-a"] true
    [newTrinketEntry "pack-a" "h" "main"] false rfl rfl rfl rfl rfl rfl rfl

/-! ### C1: digest and reference of matching entries -/

/-- C1 is false as stated: on this input the run succeeds (exit 0),
the single entry's `appUrl` contains the configured repository, its
hash already equals the computed digest, yet its `ref` stays `"old"`,
different from the configured reference `"main"` — because lines
117–121 update `ref` only inside the hash-mismatch branch. -/
theorem claim1_counterexample :
    (runScript ⟨some "Nishimba/TrinketCollection", some "main"⟩ (fun _ => "h")
      ⟨.jsonArr "raw" [Json.obj [("id", Json.str "a"),
          ("appUrl", Json.str "https://x.test/Nishimba/TrinketCollection/a"),
          ("hash", Json.str "h"), ("ref", Json.str "old")]],
        some [], .ok true []⟩).outcome = .success true ∧
    fileEntries (runScript ⟨some "Nishimba/TrinketCollection", some "main"⟩ (fun _ => "h")
      ⟨.jsonArr "raw" [Json.obj [("id", Json.str "a"),
          ("appUrl", Json.str "https://x.test/Nishimba/TrinketCollection/a"),
          ("hash", Json.str "h"), ("ref", Json.str "old")]],
        some [], .ok true []⟩).file
      = [Json.obj [("id", Json.str "a"),
          ("appUrl", Json.str "https://x.test/Nishimba/TrinketCollection/a"),
          ("hash", Json.str "h"), ("ref", Json.str "old")]] ∧
    entryMatches "Nishimba/TrinketCollection"
      (Json.obj [("id", Json.str "a"),
        ("appUrl", Json.str "https://x.test/Nishimba/TrinketCollection/a"),
        ("hash", Json.str "h"), ("ref", Json.str "old")]) = .ok true ∧
    jGet (Json.obj [("id", Json.str "a"),
        ("appUrl", Json.str "https://x.test/Nishimba/TrinketCollection/a"),
        ("hash", Json.str "h"), ("ref", Json.str "old")]) "ref" = some (Json.str "old") ∧
    "old" ≠ "main" :=
  ⟨rfl, rfl, rfl, rfl, by decide⟩

/-- C1 amended: after a successful run every entry whose `appUrl`
references the configured repository stores exactly the computed
digest — in particular all such entries share one hash — and the
`ref` field is set to the configured reference for those matching
entries whose stored hash differed from the digest; a matching entry
whose hash was already current is left entirely unchanged, so it
keeps its previous `ref` (last conjunct). -/
theorem claim1_amended (cfg : Config) (hashFn : List Nat → String) (w : World)
    (raw : String) (xs ids : List Json) (bytes : List Nat)
    (entries : List (String × Bool)) (ap idsF : List Json) (fl : Bool)
    (ys : List Json) (u : Bool)
    (hc : (truthy cfg.repo && truthy cfg.ref) = true)
    (hm : w.manifest = .jsonArr raw xs)
    (hids : extractIds xs = .ok ids)
    (hf : w.fetch1 = some bytes)
    (hs : w.scan = .ok true entries)
    (hd : discover (hashFn bytes) (cfg.ref.getD "") entries ids = (ap, idsF, fl))
    (hu : updateLoop (cfg.repo.getD "") (cfg.ref.getD "") (hashFn bytes) (xs ++ ap)
      = .ok (ys, u)) :
    (∃ b, (runScript cfg hashFn w).outcome = .success b) ∧
    (∀ t ∈ fileEntries (runScript cfg hashFn w).file,
      entryMatches (cfg.repo.getD "") t = .ok true →
        jGet t "hash" = some (.str (hashFn bytes))) ∧
    (∀ t ∈ fileEntries (runScript cfg hashFn w).file,
      ∀ t' ∈ fileEntries (runScript cfg hashFn w).file,
        entryMatches (cfg.repo.getD "") t = .ok true →
        entryMatches (cfg.repo.getD "") t' = .ok true →
          jGet t "hash" = jGet t' "hash") ∧
    (∀ i (hi : i < xs.length)
        (hj : i < (fileEntries (runScript cfg hashFn w).file).length),
      entryMatches (cfg.repo.getD "") (xs.get ⟨i, hi⟩) = .ok true →
      hashUpToDate (hashFn bytes) (xs.get ⟨i, hi⟩) = false →
        jGet ((fileEntries (runScript cfg hashFn w).file).get ⟨i, hj⟩) "ref"
          = some (.str (cfg.ref.getD "")) ∧
        jGet ((fileEntries (runScript cfg hashFn w).file).get ⟨i, hj⟩) "hash"
          = some (.str (hashFn bytes))) ∧
    (∀ i (hi : i < xs.length)
        (hj : i < (fileEntries (runScript cfg hashFn w).file).length),
      entryMatches (cfg.repo.getD "") (xs.get ⟨i, hi⟩) = .ok true →
      hashUpToDate (hashFn bytes) (xs.get ⟨i, hi⟩) = true →
        (fileEntries (runScript cfg hashFn w).file).get ⟨i, hj⟩ = xs.get ⟨i, hi⟩ ∧
        jGet ((fileEntries (runScript cfg hashFn w).file).get ⟨i, hj⟩) "ref"
          = jGet (xs.get ⟨i, hi⟩) "ref") := by
  rw [runScript_eq_reconcile hc hm hids hf hs, reconcile_eq hd hu]
  by_cases hone : (fl || u) = true
  · rw [if_pos hone]
    have hhash : ∀ t ∈ ys, entryMatches (cfg.repo.getD "") t = .ok true →
        jGet t "hash" = some (.str (hashFn bytes)) := by
      intro t' ht' hmatch
      obtain ⟨t, -, u', hu'⟩ := updateLoop_mem hu t' ht'
      have hmt : entryMatches (cfg.repo.getD "") t = .ok true := by
        rw [← updateOne_matches_eq hu' (cfg.repo.getD "")]
        exact hmatch
      exact updateOne_hash_val hu' hmt
    refine ⟨⟨false, rfl⟩, hhash, ?_, ?_, ?_⟩
    · intro t ht t' ht' h1 h2
      rw [hhash t ht h1, hhash t' ht' h2]
    · intro i hi hj hmatch hstale
      have hlen : i < (xs ++ ap).length := by
        rw [List.length_append]
        exact Nat.lt_of_lt_of_le hi (Nat.le_add_right _ _)
      obtain ⟨ui, hone'⟩ := updateLoop_pointwise hu i hlen hj
      rw [List.get_append _ hi] at hone'
      obtain ⟨kvs, hkvs, hbranch⟩ := updateOne_cases hone'
      rcases hbranch with ⟨hmt, -, -⟩ | ⟨-, hup, -, -⟩ | ⟨-, -, -, rfl⟩
      · rw [hmatch] at hmt
        exact absurd hmt (by simp)
      · rw [hstale] at hup
        exact absurd hup (by simp)
      · obtain ⟨-, -, hh, hr⟩ := updateOne_flag_true hone'
        exact ⟨hr, hh⟩
    · intro i hi hj hmatch hcurr
      have hlen : i < (xs ++ ap).length := by
        rw [List.length_append]
        exact Nat.lt_of_lt_of_le hi (Nat.le_add_right _ _)
      obtain ⟨ui, hone'⟩ := updateLoop_pointwise hu i hlen hj
      rw [List.get_append _ hi] at hone'
      obtain ⟨kvs, hkvs, hbranch⟩ := updateOne_cases hone'
      rcases hbranch with ⟨hmt, -, -⟩ | ⟨-, -, heq', -⟩ | ⟨-, hup, -, -⟩
      · rw [hmatch] at hmt
        exact absurd hmt (by simp)
      · exact ⟨heq', congrArg (fun t => jGet t "ref") heq'⟩
      · rw [hcurr] at hup
        exact absurd hup (by simp)
  · rw [Bool.not_eq_true] at hone
    rw [hone]
    obtain ⟨hfl, hufl⟩ := Bool.or_eq_false_iff.mp hone
    subst hufl
    have hall := updateLoop_flag_false_all hu
    refine ⟨⟨true, rfl⟩, ?_, ?_, ?_, ?_⟩
    · intro t ht hmatch
      have h1 := hall t (List.mem_append_left _ ht)
      exact updateOne_hash_val h1 hmatch
    · intro t ht t' ht' h1 h2
      have g1 := updateOne_hash_val (hall t (List.mem_append_left _ ht)) h1
      have g2 := updateOne_hash_val (hall t' (List.mem_append_left _ ht')) h2
      rw [g1, g2]
    · intro i hi hj hmatch hstale
      exfalso
      have h1 := hall (xs.get ⟨i, hi⟩) (List.mem_append_left _ (xs.get_mem _ _))
      obtain ⟨kvs, hkvs, hbranch⟩ := updateOne_cases h1
      rcases hbranch with ⟨hmt, -, -⟩ | ⟨-, hup, -, -⟩ | ⟨-, -, -, hflag⟩
      · rw [hmatch] at hmt
        exact absurd hmt (by simp)
      · rw [hstale] at hup
        exact absurd hup (by simp)
      · exact absurd hflag.symm (by simp)
    · intro i hi hj hmatch hcurr
      exact ⟨rfl, rfl⟩

theorem claim1_amended_witness :
    (truthy (some "Nishimba/TrinketCollection") && truthy (some "main")) = true ∧
    (⟨.jsonArr "raw" [Json.obj [("id", Json.str "a"),
        ("appUrl", Json.str "https://x.test/Nishimba/TrinketCollection/a"),
        ("hash", Json.str "stale"), ("ref", Json.str "old")]],
      some [], .ok true []⟩ : World).manifest
      = .jsonArr "raw" [Json.obj [("id", Json.str "a"),
          ("appUrl", Json.str "https://x.test/Nishimba/TrinketCollection/a"),
          ("hash", Json.str "stale"), ("ref", Json.str "old")]] ∧
    ((∃ b, (runScript ⟨some "Nishimba/TrinketCollection", some "main"⟩ (fun _ => "h")
      ⟨.jsonArr "raw" [Json.obj [("id", Json.str "a"),
          ("appUrl", Json.str "https://x.test/Nishimba/TrinketCollection/a"),
          ("hash", Json.str "stale"), ("ref", Json.str "old")]],
        some [], .ok true []⟩).outcome = .success b) ∧
     (∀ t ∈ fileEntries (runScript ⟨some "Nishimba/TrinketCollection", some "main"⟩
        (fun _ => "h")
        ⟨.jsonArr "raw" [Json.obj [("id", Json.str "a"),
            ("appUrl", Json.str "https://x.test/Nishimba/TrinketCollection/a"),
            ("hash", Json.str "stale"), ("ref", Json.str "old")]],
          some [], .ok true []⟩).file,
        entryMatches "Nishimba/TrinketCollection" t = .ok true →
          jGet t "hash" = some (Json.str "h"))) := by
  have hx := claim1_amended ⟨some "Nishimba/TrinketCollection", some "main"⟩ (fun _ => "h")
    ⟨.jsonArr "raw" [Json.obj [("id", Json.str "a"),
        ("appUrl", Json.str "https://x.test/Nishimba/TrinketCollection/a"),
        ("hash", Json.str "stale"), ("ref", Json.str "old")]],
      some [], .ok true []⟩
    "raw" [Json.obj [("id", Json.str "a"),
        ("appUrl", Json.str "https://x.test/Nishimba/TrinketCollection/a"),
        ("hash", Json.str "stale"), ("ref", Json.str "old")]]
    [Json.str "a"] [] [] [] [Json.str "a"] false
    [Json.obj [("id", Json.str "a"),
        ("appUrl", Json.str "https://x.test/Nishimba/TrinketCollection/a"),
        ("hash", Json.str "h"), ("ref", Json.str "main")]] true
    rfl rfl rfl rfl rfl rfl rfl
  exact ⟨rfl, rfl, hx.1, hx.2.1⟩

/-! ### C5: synthesis of entries for newly discovered folders -/

theorem hasId_newTrinketEntry (B n h r : String) :
    hasId B (newTrinketEntry n h r) = decide (n = B) := by
  rw [hasId, jGet_newTrinketEntry_id]
  simp [Option.any, pyEqStr]

theorem filter_nodup_singleton {ns : List String} {B : String}
    (hnd : ns.Nodup) (hB : B ∈ ns) :
    ns.filter (fun n => decide (n = B)) = [B] := by
  induction ns with
  | nil => exact absurd hB (by simp)
  | cons a ns ih =>
    rw [List.nodup_cons] at hnd
    rw [List.filter_cons]
    rcases List.mem_cons.mp hB with rfl | hB'
    · rw [if_pos (by simp)]
      have hnil : ns.filter (fun n => decide (n = B)) = [] := by
        refine List.filter_eq_nil_iff.mpr (fun n hn => ?_)
        simp only [decide_eq_true_eq]
        rintro rfl
        exact hnd.1 hn
      rw [hnil]
    · rw [if_neg (by simp only [decide_eq_true_eq]; rintro rfl; exact hnd.1 hB'),
        ih hnd.2 hB']

/-- C5: a non-excluded top-level directory `B` of the archive root
whose name is no existing id yields, after reconciliation, exactly one
entry with id `B` in the manifest — appended with name obtained by
replacing `-` with spaces and title-casing, the three templated URLs,
the just-computed archive digest as hash and the configured reference
as ref. -/
theorem claim5_new_entry (cfg : Config) (hashFn : List Nat → String) (w : World)
    (raw : String) (xs ids : List Json) (bytes : List Nat)
    (entries : List (String × Bool)) (B : String)
    (hc : (truthy cfg.repo && truthy cfg.ref) = true)
    (hm : w.manifest = .jsonArr raw xs)
    (hids : extractIds xs = .ok ids)
    (hwf : wfManifest xs = true)
    (hf : w.fetch1 = some bytes)
    (hs : w.scan = .ok true entries)
    (hB : (B, true) ∈ entries)
    (hBex : B ∉ excludePatterns)
    (hBnew : idMem B ids = false) :
    (runScript cfg hashFn w).outcome = .success false ∧
    (fileEntries (runScript cfg hashFn w).file).filter (hasId B)
      = [newTrinketEntry B (hashFn bytes) (cfg.ref.getD "")] ∧
    jGet (newTrinketEntry B (hashFn bytes) (cfg.ref.getD "")) "id" = some (.str B) ∧
    jGet (newTrinketEntry B (hashFn bytes) (cfg.ref.getD "")) "name"
      = some (.str (pyTitle (dashToSpace B))) ∧
    jGet (newTrinketEntry B (hashFn bytes) (cfg.ref.getD "")) "appUrl"
      = some (.str ("https://Nishimba.github.io/TrinketCollection/" ++ B ++ "/index.html")) ∧
    jGet (newTrinketEntry B (hashFn bytes) (cfg.ref.getD "")) "iconUrl"
      = some (.str ("https://Nishimba.github.io/TrinketCollection/" ++ B ++ "/icon.png")) ∧
    jGet (newTrinketEntry B (hashFn bytes) (cfg.ref.getD "")) "entryFile"
      = some (.str ("https://Nishimba.github.io/TrinketCollection/" ++ B ++ "/index.html")) ∧
    jGet (newTrinketEntry B (hashFn bytes) (cfg.ref.getD "")) "hash"
      = some (.str (hashFn bytes)) ∧
    jGet (newTrinketEntry B (hashFn bytes) (cfg.ref.getD "")) "ref"
      = some (.str (cfg.ref.getD "")) := by
  obtain ⟨ns, heq, hnd, hconds, hcover, hcomplete⟩ :=
    discover_spec (hashFn bytes) (cfg.ref.getD "") entries ids
  have hBns : B ∈ ns := hcomplete B hB hBex hBnew
  have hwfap : wfManifest (xs ++ ns.map (fun n => newTrinketEntry n (hashFn bytes)
      (cfg.ref.getD ""))) = true :=
    wfManifest_append hwf (wfManifest_newEntries _ _ _)
  obtain ⟨ys, u, hu, hwfys⟩ :=
    @wf_updateLoop (cfg.repo.getD "") (cfg.ref.getD "") (hashFn bytes) _ hwfap
  have hfl : (!ns.isEmpty) = true := by
    rcases ns with - | ⟨n, ns'⟩
    · exact absurd hBns (by simp)
    · rfl
  rw [runScript_eq_reconcile hc hm hids hf hs, reconcile_eq heq hu,
    if_pos (by rw [hfl]; rfl)]
  obtain ⟨ys1, u1, ys2, u2, g1, g2, rfl, -⟩ := updateLoop_append_inv hu
  obtain ⟨hys2, -⟩ : ys2 = ns.map (fun n => newTrinketEntry n (hashFn bytes)
      (cfg.ref.getD "")) ∧ u2 = false := by
    have := g2.symm.trans (updateLoop_newEntries (cfg.repo.getD "") (cfg.ref.getD "")
      (hashFn bytes) (cfg.ref.getD "") ns)
    simp only [Except.ok.injEq, Prod.mk.injEq] at this
    exact ⟨this.1, this.2⟩
  subst hys2
  refine ⟨rfl, ?_, ?_, ?_, ?_, ?_, ?_, ?_, ?_⟩
  · show (ys1 ++ _).filter _ = _
    rw [List.filter_append]
    have h1 : ys1.filter (hasId B) = [] := by
      refine List.filter_eq_nil_iff.mpr (fun t' ht' => ?_)
      obtain ⟨t, ht, u', hu'⟩ := updateLoop_mem g1 t' ht'
      obtain ⟨kvs, rfl, v, hv, hvmem⟩ := extractIds_mem hids t ht
      have hid' : jGet t' "id" = some v := by
        rw [updateOne_preserve hu' "id" (by decide) (by decide), jGet, hv]
      rw [hasId, hid']
      simp only [Option.any, Bool.not_eq_true]
      cases hpe : pyEqStr v B with
      | false => rfl
      | true =>
        rw [pyEqStr_true_iff.mp hpe] at hvmem
        rw [idMem_of_mem_str hvmem] at hBnew
        exact absurd hBnew (by simp)
    have h2 : (ns.map (fun n => newTrinketEntry n (hashFn bytes)
        (cfg.ref.getD ""))).filter (hasId B)
        = [newTrinketEntry B (hashFn bytes) (cfg.ref.getD "")] := by
      rw [List.filter_map]
      have hcomp : (hasId B ∘ fun n => newTrinketEntry n (hashFn bytes) (cfg.ref.getD ""))
          = fun n => decide (n = B) := by
        funext n
        exact hasId_newTrinketEntry B n _ _
      rw [hcomp, filter_nodup_singleton hnd hBns]
      rfl
    rw [h1, h2]
    rfl
  · exact jGet_newTrinketEntry_id _ _ _
  · simp [newTrinketEntry, jGet, lookupKey]
  · simp [newTrinketEntry, jGet, lookupKey]
  · simp [newTrinketEntry, jGet, lookupKey]
  · simp [newTrinketEntry, jGet, lookupKey]
  · exact jGet_newTrinketEntry_hash _ _ _
  · simp [newTrinketEntry, jGet, lookupKey]

theorem claim5_witness :
    (truthy (some "octo/repo") && truthy (some "main")) = true ∧
    (⟨.jsonArr "[]" [], some [], .ok true [(".git", true), ("my-pack", true)]⟩
      : World).manifest = .jsonArr "[]" [] ∧
    extractIds [] = .ok [] ∧
    wfManifest [] = true ∧
    ("my-pack", true) ∈ [(".git", true), ("my-pack", true)] ∧
    "my-pack" ∉ excludePatterns ∧
    idMem "my-pack" [] = false ∧
    ((runScript ⟨some "octo/repo", some "main"⟩ (fun _ => "sha") ⟨.jsonArr "[]" [],
        some [], .ok true [(".git", true), ("my-pack", true)]⟩).outcome
      = .success false ∧
     (fileEntries (runScript ⟨some "octo/repo", some "main"⟩ (fun _ => "sha")
        ⟨.jsonArr "[]" [], some [], .ok true [(".git", true), ("my-pack", true)]⟩).file).filter
        (hasId "my-pack") = [newTrinketEntry "my-pack" "sha" "main"]) := by
  have h := claim5_new_entry ⟨some "octo/repo", some "main"⟩ (fun _ => "sha")
    ⟨.jsonArr "[]" [], some [], .ok true [(".git", true), ("my-pack", true)]⟩
    "[]" [] [] [] [(".git", true), ("my-pack", true)] "my-pack"
    rfl rfl rfl rfl rfl rfl (by simp) (by decide) rfl
  exact ⟨rfl, rfl, rfl, rfl, by simp, by decide, rfl, h.1, h.2.1⟩

/-! ### C2: idempotence of reconciliation -/

/-- C2: with unchanged configuration and unchanged upstream archive
(same downloaded bytes, hence same digest, and same scanned listing),
running the script a second time on the manifest file produced by a
completed first run takes the no-op branch: it reports "no changes",
performs no write, and leaves the file's content byte-identical to the
content after the first run.  A valid manifest here is one the first
run can process: its entries are well formed and the line 43 id
collection succeeds (`hids`); a manifest on which line 43 raises dies
uncaught on both runs and never reaches the no-op branch. -/
theorem claim2_idempotent (cfg : Config) (hashFn : List Nat → String) (w : World)
    (raw : String) (xs ids : List Json) (bytes : List Nat)
    (entries : List (String × Bool))
    (hc : (truthy cfg.repo && truthy cfg.ref) = true)
    (hm : w.manifest = .jsonArr raw xs)
    (hwf : wfManifest xs = true)
    (hids : extractIds xs = .ok ids)
    (hf : w.fetch1 = some bytes)
    (hs : w.scan = .ok true entries) :
    (∃ b, (runScript cfg hashFn w).outcome = .success b) ∧
    (runScript cfg hashFn { w with manifest := (runScript cfg hashFn w).file }).outcome
      = .success true ∧
    (runScript cfg hashFn { w with manifest := (runScript cfg hashFn w).file }).wrote
      = false ∧
    (runScript cfg hashFn { w with manifest := (runScript cfg hashFn w).file }).file
      = (runScript cfg hashFn w).file := by
  rcases w with ⟨wman, wfetch, wscan⟩
  simp only at hm hf hs
  subst hm hf hs
  obtain ⟨ns, heq, hnd, hconds, hcover, hcomplete⟩ :=
    discover_spec (hashFn bytes) (cfg.ref.getD "") entries ids
  have hwfap : wfManifest (xs ++ ns.map (fun n => newTrinketEntry n (hashFn bytes)
      (cfg.ref.getD ""))) = true :=
    wfManifest_append hwf (wfManifest_newEntries _ _ _)
  obtain ⟨ys, u, hu, hwfys⟩ :=
    @wf_updateLoop (cfg.repo.getD "") (cfg.ref.getD "") (hashFn bytes) _ hwfap
  have hrun1 : runScript cfg hashFn ⟨.jsonArr raw xs, some bytes, .ok true entries⟩
      = if ((!ns.isEmpty) || u) = true then
          ⟨.success false, .jsonArr (dumpJson (.arr ys)) ys, true, true, true⟩
        else ⟨.success true, .jsonArr raw xs, true, true, false⟩ :=
    (runScript_eq_reconcile hc rfl hids rfl rfl).trans (reconcile_eq heq hu)
  by_cases hone : ((!ns.isEmpty) || u) = true
  · -- the first run wrote the reconciled entry list
    rw [hrun1, if_pos hone]
    have hids2 : extractIds ys = .ok (ids ++ ns.map Json.str) := by
      rw [updateLoop_extractIds hu,
        extractIds_append hids (extractIds_newEntries (hashFn bytes) (cfg.ref.getD "") ns)]
    obtain ⟨ns2, heq2, -, hconds2, -, -⟩ :=
      discover_spec (hashFn bytes) (cfg.ref.getD "") entries (ids ++ ns.map Json.str)
    have hns2 : ns2 = [] := by
      rcases ns2 with - | ⟨n, ns2'⟩
      · rfl
      · exfalso
        obtain ⟨hmem, hexcl, hentry⟩ := hconds2 n (List.mem_cons_self n ns2')
        rw [hcover (n, true) hentry hexcl rfl] at hmem
        exact absurd hmem (by simp)
    subst hns2
    have hu2 : updateLoop (cfg.repo.getD "") (cfg.ref.getD "") (hashFn bytes) (ys ++ [])
        = .ok (ys, false) := by
      rw [List.append_nil]
      exact updateLoop_idem hu
    have hrun2 : runScript cfg hashFn
        ⟨.jsonArr (dumpJson (.arr ys)) ys, some bytes, .ok true entries⟩
        = ⟨.success true, .jsonArr (dumpJson (.arr ys)) ys, true, true, false⟩ := by
      rw [runScript_eq_reconcile hc rfl hids2 rfl rfl, reconcile_eq heq2 hu2]
      rw [if_neg (by simp)]
    rw [hrun2]
    exact ⟨⟨false, rfl⟩, rfl, rfl, rfl⟩
  · -- the first run was already a no-op
    rw [Bool.not_eq_true] at hone
    obtain ⟨hemp, hufl⟩ := Bool.or_eq_false_iff.mp hone
    rw [hrun1, if_neg (by rw [hone]; simp)]
    subst hufl
    have hys : ys = xs ++ ns.map (fun n => newTrinketEntry n (hashFn bytes)
        (cfg.ref.getD "")) := updateLoop_flag_false hu
    obtain rfl : ns = [] := by
      rcases ns with - | ⟨n, ns'⟩
      · rfl
      · exact absurd hemp (by simp)
    rw [List.map_nil, List.append_nil] at hys
    subst hys
    have hrun2 : runScript cfg hashFn ⟨.jsonArr raw ys, some bytes, .ok true entries⟩
        = ⟨.success true, .jsonArr raw ys, true, true, false⟩ := by
      rw [runScript_eq_reconcile hc rfl hids rfl rfl, reconcile_eq heq hu,
        if_neg (by rw [hone]; simp)]
    rw [hrun2]
    exact ⟨⟨true, rfl⟩, rfl, rfl, rfl⟩

theorem claim2_witness :
    (truthy (some "octo/repo") && truthy (some "main")) = true ∧
    (⟨.jsonArr "[]" [], some [], .ok true [("pack-a", true)]⟩ : World).manifest
      = .jsonArr "[]" [] ∧
    wfManifest [] = true ∧
    extractIds [] = .ok [] ∧
    ((∃ b, (runScript ⟨some "octo/repo", some "main"⟩ (fun _ => "sha")
        ⟨.jsonArr "[]" [], some [], .ok true [("pack-a", true)]⟩).outcome = .success b) ∧
     (runScript ⟨some "octo/repo", some "main"⟩ (fun _ => "sha")
        { (⟨.jsonArr "[]" [], some [], .ok true [("pack-a", true)]⟩ : World) with
          manifest := (runScript ⟨some "octo/repo", some "main"⟩ (fun _ => "sha")
            ⟨.jsonArr "[]" [], some [], .ok true [("pack-a", true)]⟩).file }).outcome
        = .success true ∧
     (runScript ⟨some "octo/repo", some "main"⟩ (fun _ => "sha")
        { (⟨.jsonArr "[]" [], some [], .ok true [("pack-a", true)]⟩ : World) with
          manifest := (runScript ⟨some "octo/repo", some "main"⟩ (fun _ => "sha")
            ⟨.jsonArr "[]" [], some [], .ok true [("pack-a", true)]⟩).file }).wrote
        = false ∧
     (runScript ⟨some "octo/repo", some "main"⟩ (fun _ => "sha")
        { (⟨.jsonArr "[]" [], some [], .ok true [("pack-a", true)]⟩ : World) with
          manifest := (runScript ⟨some "octo/repo", some "main"⟩ (fun _ => "sha")
            ⟨.jsonArr "[]" [], some [], .ok true [("pack-a", true)]⟩).file }).file
        = (runScript ⟨some "octo/repo", some "main"⟩ (fun _ => "sha")
            ⟨.jsonArr "[]" [], some [], .ok true [("pack-a", true)]⟩).file) :=
  ⟨rfl, rfl, rfl, rfl,
    claim2_idempotent ⟨some "octo/repo", some "main"⟩ (fun _ => "sha")
      ⟨.jsonArr "[]" [], some [], .ok true [("pack-a", true)]⟩
      "[]" [] [] [] [("pack-a", true)] rfl rfl rfl rfl rfl rfl⟩

end TrinketManifest
